import Mathlib

set_option maxHeartbeats 1000000

/- Shallow embedding of
   packages/altair-app/src/app/modules/altair/services/query-collection/query-collection.service.ts.
   JavaScript strings are modeled as `List Char`; optional (possibly-undefined) string
   fields as `Option (List Char)`; the Dexie queryCollections table as a `List Collection`
   keyed by the `id` field; timestamps as milliseconds (`Nat`). -/

/-- The COLLECTION_PATH_SEPARATOR constant of the source, the character '/'. -/
def COLLECTION_PATH_SEPARATOR : Char := '/'

/-- Model of JavaScript s.split(sep): split a character list at every occurrence of sep
    (the empty string splits to [[]], matching ''.split(sep) = ['']). -/
def splitSep (sep : Char) : List Char → List (List Char)
  | [] => [[]]
  | c :: rest =>
    match splitSep sep rest with
    | [] => [[]]
    | seg :: segs => if c = sep then [] :: seg :: segs else (c :: seg) :: segs

/-- Model of `.split(COLLECTION_PATH_SEPARATOR).pop()`: the last '/'-segment of a path
    (the empty segment for the empty path). -/
def lastSegment (p : List Char) : List Char :=
  (splitSep COLLECTION_PATH_SEPARATOR p).getLastD []

/-- Model of JavaScript String.prototype.replace with a plain string pattern: replace only
    the first occurrence of pat (the empty pattern matches at index 0, prepending repl). -/
def replaceFirst (pat repl : List Char) : List Char → List Char
  | [] => if pat = [] then repl else []
  | c :: rest =>
    if pat.isPrefixOf (c :: rest) then repl ++ (c :: rest).drop pat.length
    else c :: replaceFirst pat repl rest

/-- Decimal value of a digit list. -/
def digitsToNat (s : List Char) : Nat := s.foldl (fun a c => a * 10 + (c.toNat - 48)) 0

/-- Model of the JavaScript Number(s) conversion on the inputs this service meets: the
    empty string converts to 0, a nonempty all-digit string to its decimal value, and a
    string containing a non-digit (such as "42x") to NaN, modeled as `none`. -/
def jsNumber (s : List Char) : Option Nat :=
  if s = [] then some 0
  else if s.all Char.isDigit then some (digitsToNat s) else none

/-- The CollectionID type of the source: number | string. -/
inductive CollID where
  | num (n : Nat)
  | str (s : List Char)
deriving DecidableEq

/-- JavaScript template-string rendering of a CollectionID, as in the template literals
    of the source. -/
def CollID.render : CollID → List Char
  | .num n => (toString n).data
  | .str s => s

/-- JavaScript truthiness of a CollectionID: the number 0 and the string '' are falsy. -/
def CollID.truthy : CollID → Bool
  | .num n => n != 0
  | .str s => s != []

/-- getAlternateCollectionID (source lines 184–198): a numeric id's alternate is its
    string form; a string id's alternate is its numeric parse, replaced by '' when the
    parse is NaN so that NaN is never used as a lookup key. -/
def getAlternateCollectionID : CollID → CollID
  | .num n => .str (toString n).data
  | .str s =>
    match jsNumber s with
    | some n => .num n
    | none => .str []

/-- The IQuery shape: id/serverId/windowName and the per-query timestamps, plus the
    remaining payload collapsed into `content`. -/
structure Query where
  id : Option (List Char)
  serverId : Option Nat
  windowName : Option (List Char)
  created_at : Option Nat
  updated_at : Option Nat
  content : List Char
deriving DecidableEq

/-- The IQueryCollection shape: the flat stored record. -/
structure Collection where
  id : Option CollID
  title : List Char
  parentPath : Option (List Char)
  serverId : Option Nat
  queries : List Query
  created_at : Option Nat
  updated_at : Option Nat
deriving DecidableEq

/-- The queryCollections table of the StorageService. -/
abbrev Store := List Collection

/-- JavaScript truthiness of an optional string: undefined and '' are falsy. -/
def strTruthy : Option (List Char) → Bool
  | none => false
  | some s => s != []

/-- Dexie table.get(key): the record whose primary key `id` equals the given id. -/
def storeGet (st : Store) (cid : CollID) : Option Collection :=
  st.find? (fun c => c.id == some cid)

/-- getCollectionByID (source lines 200–208): look up by the given id and, when nothing
    is found, retry with the alternate id. -/
def getCollectionByID (st : Store) (cid : CollID) : Option Collection :=
  match storeGet st cid with
  | some c => some c
  | none => storeGet st (getAlternateCollectionID cid)

/-- updateCollectionByID (source lines 210–224): where('id').equals(id).or('id')
    .equals(alternateId).modify(changeCb) — apply the change to every matching record. -/
def updateCollectionByID (st : Store) (cid : CollID) (f : Collection → Collection) : Store :=
  let alt := getAlternateCollectionID cid
  st.map (fun c => if c.id == some cid || c.id == some alt then f c else c)

/-- Dexie table.delete(key): remove the record stored under the given primary key. -/
def storeDelete (st : Store) (cid : CollID) : Store :=
  st.filter (fun c => !(c.id == some cid))

/-- deleteLocalCollection (source lines 327–332): delete the record stored under the id
    and the one stored under its alternate id. -/
def deleteLocalCollection (st : Store) (cid : CollID) : Store :=
  storeDelete (storeDelete st cid) (getAlternateCollectionID cid)

/-- deleteCollection (source lines 309–325): mustGetLocalCollection (throws when the
    lookup fails), then the local delete; the remaining remote branches gate on
    authentication and serverId and never modify the local store. -/
def deleteCollection (st : Store) (cid : CollID) : Except String Store :=
  match getCollectionByID st cid with
  | none => Except.error "Could not retrieve local collection data"
  | some _ => Except.ok (deleteLocalCollection st cid)

/-- addLocalQuery (source lines 150–156): push the query with a fresh uuid id (`newId`)
    and both timestamps set to now; the collection-level fields are untouched. -/
def addLocalQuery (st : Store) (cid : CollID) (q : Query) (newId : List Char) (now : Nat) :
    Store :=
  updateCollectionByID st cid (fun c =>
    { c with queries := c.queries ++
        [{ q with id := some newId, created_at := some now, updated_at := some now }] })

/-- updateLocalQuery (source lines 241–258): overwrite the query with the matching id by
    the incoming query stamped with the id and a fresh updated_at; the collection-level
    updated_at assignment is commented out in the source. The object spread over the
    stored query is modeled as a whole-record override. -/
def updateLocalQuery (st : Store) (cid : CollID) (queryId : List Char) (q : Query)
    (now : Nat) : Store :=
  updateCollectionByID st cid (fun c =>
    { c with queries := c.queries.map (fun cq =>
        if cq.id == some queryId then { q with id := some queryId, updated_at := some now }
        else cq) })

/-- deleteLocalQuery (source lines 288–307): remove by id when the incoming query has a
    truthy id, otherwise (legacy records) remove the queries with the same windowName;
    the collection-level updated_at assignment is commented out in the source. -/
def deleteLocalQuery (st : Store) (cid : CollID) (q : Query) : Store :=
  updateCollectionByID st cid (fun c =>
    { c with queries := c.queries.filter (fun cq =>
        if strTruthy q.id then !(q.id == cq.id) else !(q.windowName == cq.windowName)) })

/-- deleteQuery (source lines 260–286): mustGetLocalCollection (throws when the lookup
    fails), then the local delete; the remote branches either return early (not logged
    in, no collection serverId, no query id, no query serverId — the latter two only
    logged) or call the remote API, and never modify the local store. -/
def deleteQuery (st : Store) (cid : CollID) (q : Query) : Except String Store :=
  match getCollectionByID st cid with
  | none => Except.error "Could not retrieve local collection data"
  | some _ => Except.ok (deleteLocalQuery st cid q)

/-- updateLocalCollection (source lines 371–379): whole-record replacement (ctx.value =
    modifiedCollection) of every matching record, stamping updated_at with now. -/
def updateLocalCollection (st : Store) (cid : CollID) (modified : Collection) (now : Nat) :
    Store :=
  updateCollectionByID st cid (fun _ => { modified with updated_at := some now })

/-- getSubcollectionParentPath (source lines 744–749): the parent collection's
    parentPath ?? '' followed by '/' and the parent collection id. -/
def getSubcollectionParentPath (st : Store) (parentId : CollID) : List Char :=
  (match getCollectionByID st parentId with
   | some p => p.parentPath.getD []
   | none => []) ++ COLLECTION_PATH_SEPARATOR :: parentId.render

/-- createLocalCollection (source lines 85–106): compute the parentPath (empty unless a
    truthy parent collection id is given), give every query a fresh uuid id and fresh
    timestamps, then add the collection with a fresh uuid id. The uuid() calls are
    modeled by the supply `uuid` consumed at successive counter values, in evaluation
    order: the queries first, then the collection id. Returns the grown store and the
    next counter. -/
def createLocalCollection (uuid : Nat → List Char) (k : Nat) (st : Store)
    (c : Collection) (parentId : Option CollID) (now : Nat) : Store × Nat :=
  let pp : List Char :=
    match parentId with
    | some pid => if pid.truthy then getSubcollectionParentPath st pid else []
    | none => []
  let qs := c.queries.enum.map (fun qi =>
    { qi.2 with id := some (uuid (k + qi.1)), created_at := some now, updated_at := some now })
  let newC : Collection :=
    { c with queries := qs, id := some (.str (uuid (k + c.queries.length))),
             parentPath := some pp, created_at := some now, updated_at := some now }
  (st ++ [newC], k + c.queries.length + 1)

/-- moveLocalCollection (source lines 560–605): look up the moved collection and the new
    parent (errors when either is missing), select the moved collection (by id or
    alternate id) together with every record whose parentPath starts with the old
    absolute path, and rewrite each selected record's parentPath by replacing the first
    occurrence of the old parent path with the new parent's absolute path (records with
    an undefined parentPath keep it, through the optional chaining). -/
def moveLocalCollection (st : Store) (cid newPid : CollID) : Except String Store :=
  match getCollectionByID st cid with
  | none => Except.error "Could not retrieve collection"
  | some collection =>
    match getCollectionByID st newPid with
    | none => Except.error "Could not retrieve parent collection"
    | some newParentCollection =>
      let newParentCollectionParentPath := newParentCollection.parentPath.getD []
      let newParentSubcollectionParentPath :=
        newParentCollectionParentPath ++ COLLECTION_PATH_SEPARATOR :: newPid.render
      let collectionParentPath := collection.parentPath.getD []
      let oldAbsPath := collectionParentPath ++ COLLECTION_PATH_SEPARATOR :: cid.render
      Except.ok (st.map (fun c =>
        if c.id == some cid || c.id == some (getAlternateCollectionID cid)
            || (match c.parentPath with
                | some p => oldAbsPath.isPrefixOf p
                | none => false) then
          { c with parentPath :=
              c.parentPath.map (replaceFirst collectionParentPath newParentSubcollectionParentPath) }
        else c))

/-- getParentCollectionId (source lines 648–651): the last '/'-segment of parentPath, or
    none when the path is undefined or the segment is empty. -/
def getParentCollectionId (c : Collection) : Option (List Char) :=
  match c.parentPath with
  | none => none
  | some p => if lastSegment p = [] then none else some (lastSegment p)

/-- The IQueryCollectionTree shape: the ephemeral nested view, whose id is the
    stringified collection id and whose `collections` field holds the children. -/
structure CollectionTree where
  id : List Char
  title : List Char
  parentPath : Option (List Char)
  serverId : Option Nat
  queries : List Query
  created_at : Option Nat
  updated_at : Option Nat
  collections : List CollectionTree

/-- Stringified id of a record, as used for the Map keys of getCollectionTrees (a
    missing id only occurs outside the ok branch). -/
def idStrOf (c : Collection) : List Char :=
  match c.id with
  | some i => i.render
  | none => []

/-- The tree node made for a record in the first loop of getCollectionTrees: every field
    copied, the id stringified, and `collections` holding the attached children. -/
def mkNodeRec (c : Collection) (kids : List CollectionTree) : CollectionTree :=
  { id := idStrOf c, title := c.title, parentPath := c.parentPath, serverId := c.serverId,
    queries := c.queries, created_at := c.created_at, updated_at := c.updated_at,
    collections := kids }

/-- The records attached under the map key `key` by the second loop of
    getCollectionTrees: those (in input order) with a truthy parentPath whose derived
    parent id equals `key`. -/
def childrenIn (L : List Collection) (key : List Char) : List Collection :=
  L.filter (fun d => strTruthy d.parentPath && (getParentCollectionId d == some key))

/-- Root test of the second loop of getCollectionTrees: falsy parentPath, or falsy
    derived parent id. -/
def isRootJS (c : Collection) : Bool :=
  !(strTruthy c.parentPath) || (getParentCollectionId c == none)

/-- One tree node of getCollectionTrees reconstructed functionally: children are the
    records attached under this record's stringified id, recursively. The source builds
    the same object graph by mutating Map entries; `fuel` bounds the recursion depth and
    is instantiated with the input length, which suffices for every node reachable from
    a root, because an ancestor chain cannot repeat a record. -/
def buildNode (L : List Collection) : Nat → Collection → CollectionTree
  | 0, c => mkNodeRec c []
  | fuel + 1, c => mkNodeRec c ((childrenIn L (idStrOf c)).map (buildNode L fuel))

/-- getCollectionTrees (source lines 607–646): throw when some record lacks a truthy id,
    otherwise return the root nodes in input order. This functional reconstruction
    agrees with the source's Map-mutation construction whenever the stringified ids are
    pairwise distinct (a duplicate key would silently overwrite its Map entry); the
    theorems below all assume that. -/
def getCollectionTrees (L : List Collection) : Except String (List CollectionTree) :=
  if L.all (fun c => match c.id with | some i => i.truthy | none => false) then
    Except.ok ((L.filter isRootJS).map (buildNode L L.length))
  else Except.error "All collections must have an ID to get a tree!"

mutual
/-- getCollectionListFromTree (source lines 678–698): pre-order flatten that strips the
    `collections` field, keeps the (stringified) id, and sets parentPath to the path
    accumulated from the ancestors. -/
def getCollectionListFromTree (t : CollectionTree) (parentPath : List Char) :
    List Collection :=
  { id := some (.str t.id), title := t.title, parentPath := some parentPath,
    serverId := t.serverId, queries := t.queries, created_at := t.created_at,
    updated_at := t.updated_at }
  :: flattenForest t.collections (parentPath ++ COLLECTION_PATH_SEPARATOR :: t.id)
termination_by sizeOf t
decreasing_by cases t; simp; try omega

/-- Flatten of sibling subtrees under a common accumulated path (the map-then-flat of
    the source). -/
def flattenForest (ts : List CollectionTree) (parentPath : List Char) : List Collection :=
  match ts with
  | [] => []
  | t :: ts' => getCollectionListFromTree t parentPath ++ flattenForest ts' parentPath
termination_by sizeOf ts
decreasing_by all_goals (simp; try omega)
end

mutual
/-- remapCollectionIDsToCollectionList (source lines 700–723): the flatten above, except
    that every node first receives a fresh uuid id (the supply `u` consumed at
    successive counter values, pre-order) and the children's accumulated path is built
    from the reassigned id. Returns the flat list and the next counter. -/
def remapCollectionIDsToCollectionList (u : Nat → List Char) (t : CollectionTree)
    (parentPath : List Char) (k : Nat) : List Collection × Nat :=
  let newId := u k
  let sub := remapForest u t.collections
      (parentPath ++ COLLECTION_PATH_SEPARATOR :: newId) (k + 1)
  ({ id := some (.str newId), title := t.title, parentPath := some parentPath,
     serverId := t.serverId, queries := t.queries, created_at := t.created_at,
     updated_at := t.updated_at } :: sub.1, sub.2)
termination_by sizeOf t
decreasing_by cases t; simp; try omega

/-- Remap of sibling subtrees, threading the uuid counter left to right. -/
def remapForest (u : Nat → List Char) (ts : List CollectionTree)
    (parentPath : List Char) (k : Nat) : List Collection × Nat :=
  match ts with
  | [] => ([], k)
  | t :: ts' =>
    let r1 := remapCollectionIDsToCollectionList u t parentPath k
    let r2 := remapForest u ts' parentPath r1.2
    (r1.1 ++ r2.1, r2.2)
termination_by sizeOf ts
decreasing_by all_goals (simp; try omega)
end

/-- A remote query as returned by api.getCollections(). -/
structure ServerQuery where
  id : Nat
  updatedAt : Nat
  content : Query
deriving DecidableEq

/-- A remote collection as returned by api.getCollections(). -/
structure ServerCollection where
  id : Nat
  collectionName : List Char
  updatedAt : Nat
  queries : List ServerQuery
deriving DecidableEq

/-- The timestampDiffOffset of syncRemoteToLocal: two minutes in milliseconds. -/
def timestampDiffOffset : Nat := 2 * 60 * 1000

/-- JavaScript `serverDate.getTime() > localDate.getTime() + timestampDiffOffset` with a
    possibly-undefined local timestamp: new Date(undefined) gives NaN, and every
    comparison against NaN is false. -/
def newerBeyondSkew (serverTime : Nat) (localTime : Option Nat) : Bool :=
  match localTime with
  | some t => t + timestampDiffOffset < serverTime
  | none => false

/-- The remote-wins merge applied to the matched local collection (the forEach body of
    syncRemoteToLocal, source lines 471–498): for each remote query, overwrite the local
    query with the matching serverId by the remote content when the remote query is
    newer beyond the skew, and assign the title from the remote name — note that the
    title assignment sits inside the loop over the remote queries. -/
def mergeServerCollection (m : Collection) (sc : ServerCollection) : Collection :=
  sc.queries.foldl (fun acc sq =>
    { acc with
      queries := acc.queries.map (fun q =>
        if q.serverId == some sq.id then
          if newerBeyondSkew sq.updatedAt q.updated_at then
            { sq.content with serverId := some sq.id }
          else q
        else q),
      title := sc.collectionName }) m

/-- The state threaded through the syncRemoteToLocal loop: the store, the snapshot of
    localCollections taken before the loop (whose matched entry the source mutates in
    place), and the uuid counter. -/
structure SyncState where
  store : Store
  localCollections : List Collection
  k : Nat

/-- Replace the first record matching the predicate (the in-place mutation of the
    matched snapshot object). -/
def replaceFirstMatch (p : Collection → Bool) (x : Collection) :
    List Collection → List Collection
  | [] => []
  | c :: rest => if p c then x :: rest else c :: replaceFirstMatch p x rest

/-- The body of the for-loop of syncRemoteToLocal (source lines 463–522) for one remote
    collection: a matched local collection is merged and persisted only when the remote
    collection is newer beyond the skew (and the matched record has a truthy id); an
    unmatched remote collection is added locally through createLocalCollection. -/
def processServerCollection (uuid : Nat → List Char) (now : Nat) (s : SyncState)
    (sc : ServerCollection) : SyncState :=
  match s.localCollections.find? (fun c => c.serverId == some sc.id) with
  | some matched =>
    if newerBeyondSkew sc.updatedAt matched.updated_at then
      let merged := mergeServerCollection matched sc
      let store' :=
        match merged.id with
        | some mid => if mid.truthy then updateLocalCollection s.store mid merged now
                      else s.store
        | none => s.store
      { s with store := store',
               localCollections :=
                 replaceFirstMatch (fun c => c.serverId == some sc.id) merged
                   s.localCollections }
    else s
  | none =>
    let localCollection : Collection :=
      { id := none, title := sc.collectionName,
        queries := sc.queries.map (fun sq => { sq.content with serverId := some sq.id }),
        serverId := some sc.id, parentPath := none, created_at := none,
        updated_at := none }
    let r := createLocalCollection uuid s.k s.store localCollection none now
    { s with store := r.1, k := r.2 }

/-- syncRemoteToLocal (source lines 444–523): a no-op when unauthenticated or when the
    remote list is empty; otherwise fold the loop body over the remote collections,
    starting from a snapshot of the local store. -/
def syncRemoteToLocal (authed : Bool) (uuid : Nat → List Char) (now : Nat)
    (st : Store) (serverCollections : List ServerCollection) : Store :=
  if !authed then st
  else if serverCollections.isEmpty then st
  else (serverCollections.foldl (processServerCollection uuid now)
          { store := st, localCollections := st, k := 0 }).store

/-- Boundary-descendant test: the record's parentPath extends the absolute path
    `basePath` at a segment boundary — equal to it (an immediate child) or continuing
    with the separator (a deeper descendant). -/
def isDescRecord (basePath : List Char) (c : Collection) : Bool :=
  match c.parentPath with
  | some p => p == basePath || (basePath ++ [COLLECTION_PATH_SEPARATOR]).isPrefixOf p
  | none => false

/-- A record id in good shape for the tree-builder round trip: already a string,
    nonempty (truthy) and free of the path separator. -/
def goodIdB (c : Collection) : Bool :=
  match c.id with
  | some (.str s) => s != [] && !(s.contains COLLECTION_PATH_SEPARATOR)
  | _ => false

/-- The canonical parentPath of the children of record p, which is also p's own absolute
    path: p's parentPath followed by '/' and p's id. -/
def childPathOf (p : Collection) : List Char :=
  (p.parentPath.getD []) ++ COLLECTION_PATH_SEPARATOR :: idStrOf p

/-- The ancestor path '/u i1/u i2/.../u ik' built from uuid-counter indices. -/
def pathOf (u : Nat → List Char) : List Nat → List Char
  | [] => []
  | i :: rest => COLLECTION_PATH_SEPARATOR :: u i ++ pathOf u rest

mutual
/-- The uuid-independent skeleton of remapCollectionIDsToCollectionList: each node paired
    with its own uuid-counter index and the counter indices of its ancestors (root
    first), in the same pre-order. -/
def remapIdx (t : CollectionTree) (idxs : List Nat) (k : Nat) :
    List (CollectionTree × Nat × List Nat) × Nat :=
  let sub := remapIdxs t.collections (idxs ++ [k]) (k + 1)
  ((t, k, idxs) :: sub.1, sub.2)
termination_by sizeOf t
decreasing_by cases t; simp; try omega

/-- Skeleton of the remap over sibling subtrees. -/
def remapIdxs (ts : List CollectionTree) (idxs : List Nat) (k : Nat) :
    List (CollectionTree × Nat × List Nat) × Nat :=
  match ts with
  | [] => ([], k)
  | t :: ts' =>
    let r1 := remapIdx t idxs k
    let r2 := remapIdxs ts' idxs r1.2
    (r1.1 ++ r2.1, r2.2)
termination_by sizeOf ts
decreasing_by all_goals (simp; try omega)
end

/-- Instantiation of a skeleton entry at a concrete uuid supply. -/
def instEntry (u : Nat → List Char) (e : CollectionTree × Nat × List Nat) : Collection :=
  { id := some (.str (u e.2.1)), title := e.1.title, parentPath := some (pathOf u e.2.2),
    serverId := e.1.serverId, queries := e.1.queries, created_at := e.1.created_at,
    updated_at := e.1.updated_at }

mutual
/-- All collection ids appearing in a tree document (the original, pre-remap ids). -/
def treeIds (t : CollectionTree) : List CollID :=
  .str t.id :: forestIds t.collections
termination_by sizeOf t
decreasing_by cases t; simp; try omega

/-- All collection ids of sibling subtrees. -/
def forestIds (ts : List CollectionTree) : List CollID :=
  match ts with
  | [] => []
  | t :: ts' => treeIds t ++ forestIds ts'
termination_by sizeOf ts
decreasing_by all_goals (simp; try omega)
end

/-- Fields of a flat record other than its id and its parentPath. -/
def stripRec (c : Collection) :
    List Char × Option Nat × List Query × Option Nat × Option Nat :=
  (c.title, c.serverId, c.queries, c.created_at, c.updated_at)

/-- Sample record builder for the concrete instances used by the witnesses and
    counterexamples below: a string id, a title equal to the id, no queries. -/
def sampleColl (i : List Char) (pp : Option (List Char)) : Collection :=
  { id := some (.str i), title := i, parentPath := pp, serverId := none, queries := [],
    created_at := some 0, updated_at := some 0 }

/-- Sample record stored under a numeric id. -/
def sampleNumColl : Collection :=
  { id := some (.num 42), title := ['n'], parentPath := some [], serverId := none,
    queries := [], created_at := some 0, updated_at := some 0 }

/-- Sample local query carrying a server id, for the sync scenarios. -/
def sampleSyncQuery : Query :=
  { id := some ['q'], serverId := some 3, windowName := none, created_at := some 0,
    updated_at := some 1000000, content := ['o'] }

/-- Sample synced local collection (serverId 7, updated at t = 1000000 ms). -/
def sampleSyncLocal : Collection :=
  { id := some (.str ['l']), title := ['l'], parentPath := some [], serverId := some 7,
    queries := [sampleSyncQuery], created_at := some 0, updated_at := some 1000000 }

/-- Sample remote collection matching sampleSyncLocal and updated 3 minutes later, with
    one remote query (serverId 3) also 3 minutes newer. -/
def sampleSyncRemote : ServerCollection :=
  { id := 7, collectionName := ['r'], updatedAt := 1180000,
    queries := [{ id := 3, updatedAt := 1180000,
                  content := { id := some ['n'], serverId := none, windowName := none,
                               created_at := some 5, updated_at := some 6,
                               content := ['n'] } }] }

/-- Sample synced local collection with no queries, for the title divergence. -/
def sampleTitleLocal : Collection :=
  { id := some (.str ['l']), title := ['l'], parentPath := some [], serverId := some 7,
    queries := [], created_at := some 0, updated_at := some 1000000 }

/-- Sample remote collection matching sampleTitleLocal, 3 minutes newer, with an empty
    queries list. -/
def sampleTitleRemote : ServerCollection :=
  { id := 7, collectionName := ['r'], updatedAt := 1180000, queries := [] }

/-- Length of the stored path — the induction measure for walking up the tree. -/
def plen (c : Collection) : Nat := (c.parentPath.getD []).length

/-- Number of records of L with a strictly longer path than c; bounds the depth of the
    subtree hanging below c in any canonical list. -/
def measureOf (L : List Collection) (c : Collection) : Nat :=
  (L.filter (fun d => plen c < plen d)).length

/-- Sample uuid supply for the witnesses: i is rendered as i+1 repetitions of 'a'. -/
def uuidA (i : Nat) : List Char := List.replicate (i + 1) 'a'

/-- Second sample uuid supply, disjoint from uuidA: i+1 repetitions of 'b'. -/
def uuidB (i : Nat) : List Char := List.replicate (i + 1) 'b'

/-- Sample tree document with a root and one child, for the remap witness. -/
def sampleTree : CollectionTree :=
  { id := ['x'], title := ['t'], parentPath := none, serverId := none, queries := [],
    created_at := none, updated_at := none,
    collections := [{ id := ['y'], title := ['s'], parentPath := some ['/', 'x'],
                      serverId := none, queries := [], created_at := none,
                      updated_at := none, collections := [] }] }

/-- The record emitted by the flatten for a tree node built from record c, at the
    accumulated path acc: all fields copied, the id stringified, parentPath set. -/
def rebuiltRec (c : Collection) (acc : List Char) : Collection :=
  { id := some (.str (idStrOf c)), title := c.title, parentPath := some acc,
    serverId := c.serverId, queries := c.queries, created_at := c.created_at,
    updated_at := c.updated_at }

/- Helper lemmas -/

/-- When pat is a prefix of s, the first-occurrence replace is the prefix replace. -/
theorem replaceFirst_front (pat repl s : List Char) (h : pat.isPrefixOf s = true) :
    replaceFirst pat repl s = repl ++ s.drop pat.length := by
  cases s with
  | nil =>
    have hp : pat = [] := by
      have := List.isPrefixOf_iff_prefix.mp h
      simpa using this
    simp [replaceFirst, hp]
  | cons c rest => simp [replaceFirst, h]

/-- The two successive key deletes of deleteLocalCollection collapse to one filter. -/
theorem deleteLocalCollection_filter (st : Store) (cid : CollID) :
    deleteLocalCollection st cid = st.filter (fun r =>
      !(r.id == some cid || r.id == some (getAlternateCollectionID cid))) := by
  unfold deleteLocalCollection storeDelete
  induction st with
  | nil => rfl
  | cons c rest ih =>
    rcases Bool.eq_false_or_eq_true (c.id == some cid) with h1 | h1 <;>
      rcases Bool.eq_false_or_eq_true (c.id == some (getAlternateCollectionID cid))
        with h2 | h2 <;>
        simp [List.filter_cons, h1, h2, ih]

/-- Filtering a disjunction of disjoint predicates adds the two counts. -/
theorem length_filter_or_disjoint {α : Type} (l : List α) (p q : α → Bool)
    (h : ∀ x ∈ l, ¬(p x = true ∧ q x = true)) :
    (l.filter (fun x => p x || q x)).length = (l.filter p).length + (l.filter q).length := by
  induction l with
  | nil => rfl
  | cons a rest ih =>
    have hrest : ∀ x ∈ rest, ¬(p x = true ∧ q x = true) := by
      intro x hx
      exact h x (List.mem_cons_of_mem _ hx)
    rcases Bool.eq_false_or_eq_true (p a) with hp | hp <;>
      rcases Bool.eq_false_or_eq_true (q a) with hq | hq
    · exact absurd ⟨hp, hq⟩ (h a (List.mem_cons_self _ _))
    · simp [List.filter_cons, hp, hq, ih hrest]
      omega
    · simp [List.filter_cons, hp, hq, ih hrest]
      try omega
    · simp [List.filter_cons, hp, hq, ih hrest]

/-- The remote-wins merge keeps the matched record's id. -/
theorem mergeServerCollection_id (m : Collection) (sc : ServerCollection) :
    (mergeServerCollection m sc).id = m.id := by
  unfold mergeServerCollection
  generalize sc.queries = qs
  induction qs generalizing m with
  | nil => rfl
  | cons sq rest ih => rw [List.foldl_cons]; exact ih _

/- Claim theorems -/

/-- C10: addLocalQuery, updateLocalQuery and deleteLocalQuery — the only local-store
    writes performed by addQuery, updateQuery and deleteQuery — preserve every stored
    record's collection-level updated_at, so a local query edit does not refresh the
    collection-level timestamp that syncRemoteToLocal compares against. -/
theorem queryOps_keep_collection_updated_at (st : Store) (cid : CollID) (q : Query)
    (queryId newId : List Char) (now : Nat) :
    (addLocalQuery st cid q newId now).map Collection.updated_at =
      st.map Collection.updated_at ∧
    (updateLocalQuery st cid queryId q now).map Collection.updated_at =
      st.map Collection.updated_at ∧
    (deleteLocalQuery st cid q).map Collection.updated_at =
      st.map Collection.updated_at := by
  refine ⟨?_, ?_, ?_⟩ <;>
  · simp only [addLocalQuery, updateLocalQuery, deleteLocalQuery, updateCollectionByID,
      List.map_map]
    refine List.map_congr_left ?_
    intro c _
    by_cases h : (c.id == some cid || c.id == some (getAlternateCollectionID cid)) = true <;>
      simp [Function.comp, h]

/-- C9: deleteQuery on an existing collection, with a query that has no id and whose
    windowName matches no query of any record stored under the collection id (or its
    alternate id), leaves the store unchanged and reports no error. -/
theorem deleteQuery_unmatched_noop (st : Store) (cid : CollID) (q : Query)
    (c : Collection) (hget : getCollectionByID st cid = some c) (hid : q.id = none)
    (hwn : ∀ r ∈ st, (r.id = some cid ∨ r.id = some (getAlternateCollectionID cid)) →
        ∀ cq ∈ r.queries, q.windowName ≠ cq.windowName) :
    deleteQuery st cid q = Except.ok st := by
  have hloc : deleteLocalQuery st cid q = st := by
    unfold deleteLocalQuery updateCollectionByID
    conv_rhs => rw [show st = st.map id from (List.map_id st).symm]
    refine List.map_congr_left ?_
    intro r hr
    simp only [id]
    by_cases h : (r.id == some cid || r.id == some (getAlternateCollectionID cid)) = true
    · rw [if_pos h]
      have hmatch : r.id = some cid ∨ r.id = some (getAlternateCollectionID cid) := by
        simpa using h
      have hfilter : r.queries.filter (fun cq =>
          if strTruthy q.id then !(q.id == cq.id) else !(q.windowName == cq.windowName)) =
          r.queries := by
        refine List.filter_eq_self.mpr ?_
        intro cq hcq
        have hne : q.windowName ≠ cq.windowName := hwn r hr hmatch cq hcq
        simp [hid, strTruthy, hne]
      rw [hfilter]
    · rw [if_neg h]
  simp [deleteQuery, hget, hloc]

/-- C8: deleteCollection removes exactly the records stored under the id and under its
    alternate id; every descendant record — one whose parentPath extends the deleted
    collection's absolute path — stored under any other key is still present after the
    call. -/
theorem deleteCollection_removes_only_keys (st : Store) (cid : CollID) (c : Collection)
    (hc : getCollectionByID st cid = some c) :
    deleteCollection st cid = Except.ok (st.filter (fun r =>
      !(r.id == some cid || r.id == some (getAlternateCollectionID cid)))) ∧
    ∀ r ∈ st, ∀ p, r.parentPath = some p → (childPathOf c).isPrefixOf p = true →
      r.id ≠ some cid → r.id ≠ some (getAlternateCollectionID cid) →
      r ∈ deleteLocalCollection st cid := by
  constructor
  · simp [deleteCollection, hc, deleteLocalCollection_filter]
  · intro r hr p hp hpre h1 h2
    rw [deleteLocalCollection_filter]
    refine List.mem_filter.mpr ⟨hr, ?_⟩
    simp [beq_iff_eq, h1, h2]

/-- C7: a collection stored under the numeric id 42 is returned by getCollectionByID for
    both the numeric id 42 and the string id "42"; for the non-numeric string "42x" with
    nothing stored under it (nor under '', the key the source substitutes for the NaN
    parse), getCollectionByID returns none without failing. -/
theorem getCollectionByID_alternate_forms (st : Store) (c : Collection)
    (h42 : storeGet st (.num 42) = some c)
    (hs42 : storeGet st (.str ['4', '2']) = none)
    (hx : storeGet st (.str ['4', '2', 'x']) = none)
    (hnil : storeGet st (.str []) = none) :
    getCollectionByID st (.num 42) = some c ∧
    getCollectionByID st (.str ['4', '2']) = some c ∧
    getCollectionByID st (.str ['4', '2', 'x']) = none := by
  have ha1 : getAlternateCollectionID (.str ['4', '2']) = .num 42 := by decide
  have ha2 : getAlternateCollectionID (.str ['4', '2', 'x']) = .str [] := by decide
  refine ⟨?_, ?_, ?_⟩
  · simp [getCollectionByID, h42]
  · simp [getCollectionByID, hs42, ha1, h42]
  · simp [getCollectionByID, hx, ha2, hnil]

/-- Witness for C7 at a concrete one-record store. -/
theorem getCollectionByID_alternate_forms_witness :
    getCollectionByID [sampleNumColl] (.num 42) = some sampleNumColl ∧
    getCollectionByID [sampleNumColl] (.str ['4', '2']) = some sampleNumColl ∧
    getCollectionByID [sampleNumColl] (.str ['4', '2', 'x']) = none :=
  getCollectionByID_alternate_forms [sampleNumColl] sampleNumColl rfl rfl rfl rfl

/-- C3 (divergence witness): a matched remote collection that wins the collection-level
    timestamp comparison but has an empty queries list is persisted — the matched record
    is replaced, its updated_at restamped — yet the local title is NOT set to the remote
    collectionName, because the title assignment sits inside the forEach over the remote
    queries, which runs zero times here. -/
theorem syncRemoteToLocal_empty_queries_title :
    syncRemoteToLocal true (fun _ => []) 2000000 [sampleTitleLocal] [sampleTitleRemote] =
      [{ sampleTitleLocal with updated_at := some 2000000 }] ∧
    sampleTitleLocal.title ≠ sampleTitleRemote.collectionName ∧
    newerBeyondSkew sampleTitleRemote.updatedAt sampleTitleLocal.updated_at = true := by
  refine ⟨rfl, by decide, by decide⟩

/-- C2: in syncRemoteToLocal, a remote collection matched by serverId replaces the local
    record only when remoteUpdatedAt strictly exceeds the local updated_at plus the
    2-minute skew tolerance; with one matched remote collection, a remote 3 minutes
    newer replaces the matched record by the merged remote data while a remote 1 minute
    newer leaves the local store unchanged. -/
theorem syncRemoteToLocal_skew_gate (s : SyncState) (sc : ServerCollection)
    (m : Collection) (uuid : Nat → List Char) (now lu : Nat) (mid : CollID)
    (hfind : s.localCollections.find? (fun c => c.serverId == some sc.id) = some m)
    (hlu : m.updated_at = some lu) :
    (¬ lu + timestampDiffOffset < sc.updatedAt →
      processServerCollection uuid now s sc = s) ∧
    (lu + timestampDiffOffset < sc.updatedAt → m.id = some mid → mid.truthy = true →
      (processServerCollection uuid now s sc).store =
        updateLocalCollection s.store mid (mergeServerCollection m sc) now) ∧
    (∀ st : Store, st.find? (fun c => c.serverId == some sc.id) = some m →
      m.id = some mid → mid.truthy = true →
      (sc.updatedAt = lu + 180000 →
        syncRemoteToLocal true uuid now st [sc] =
          updateLocalCollection st mid (mergeServerCollection m sc) now) ∧
      (sc.updatedAt = lu + 60000 → syncRemoteToLocal true uuid now st [sc] = st)) := by
  have hoff : timestampDiffOffset = 120000 := rfl
  have aux : ∀ s' : SyncState,
      s'.localCollections.find? (fun c => c.serverId == some sc.id) = some m →
      (¬ lu + timestampDiffOffset < sc.updatedAt →
        processServerCollection uuid now s' sc = s') ∧
      (lu + timestampDiffOffset < sc.updatedAt → m.id = some mid → mid.truthy = true →
        (processServerCollection uuid now s' sc).store =
          updateLocalCollection s'.store mid (mergeServerCollection m sc) now) := by
    intro s' hf
    constructor
    · intro h
      have hb : newerBeyondSkew sc.updatedAt m.updated_at = false := by
        rw [hlu]; simp [newerBeyondSkew, h]
      simp [processServerCollection, hf, hb]
    · intro h hm ht
      have hb : newerBeyondSkew sc.updatedAt m.updated_at = true := by
        rw [hlu]; simp [newerBeyondSkew, h]
      have hmid : (mergeServerCollection m sc).id = some mid := by
        rw [mergeServerCollection_id, hm]
      simp [processServerCollection, hf, hb, hmid, ht]
  refine ⟨(aux s hfind).1, (aux s hfind).2, ?_⟩
  intro st hf hm ht
  have hsync : syncRemoteToLocal true uuid now st [sc] =
      (processServerCollection uuid now { store := st, localCollections := st, k := 0 }
        sc).store := by
    simp [syncRemoteToLocal]
  constructor
  · intro hupd
    rw [hsync, (aux { store := st, localCollections := st, k := 0 } hf).2 (by omega) hm ht]
  · intro hupd
    rw [hsync, (aux { store := st, localCollections := st, k := 0 } hf).1 (by omega)]

/-- Witness for C2: both concrete scenarios, remote 3 minutes newer (replaced by the
    merge) and remote 1 minute newer (store unchanged). -/
theorem syncRemoteToLocal_skew_gate_witness :
    syncRemoteToLocal true (fun _ => []) 2000000 [sampleSyncLocal] [sampleSyncRemote] =
      updateLocalCollection [sampleSyncLocal] (.str ['l'])
        (mergeServerCollection sampleSyncLocal sampleSyncRemote) 2000000 ∧
    syncRemoteToLocal true (fun _ => []) 2000000 [sampleSyncLocal]
        [{ sampleSyncRemote with updatedAt := 1060000 }] = [sampleSyncLocal] := by
  have h3 := syncRemoteToLocal_skew_gate
      { store := [sampleSyncLocal], localCollections := [sampleSyncLocal], k := 0 }
      sampleSyncRemote sampleSyncLocal (fun _ => []) 2000000 1000000 (.str ['l']) rfl rfl
  have h1 := syncRemoteToLocal_skew_gate
      { store := [sampleSyncLocal], localCollections := [sampleSyncLocal], k := 0 }
      { sampleSyncRemote with updatedAt := 1060000 } sampleSyncLocal (fun _ => [])
      2000000 1000000 (.str ['l']) rfl rfl
  exact ⟨(h3.2.2 [sampleSyncLocal] rfl rfl rfl).1 rfl,
         (h1.2.2 [sampleSyncLocal] rfl rfl rfl).2 rfl⟩

/-- Witness for C9 at a concrete store whose single record has one query with no
    matching windowName. -/
theorem deleteQuery_unmatched_noop_witness :
    deleteQuery [sampleSyncLocal] (.str ['l'])
      { id := none, serverId := none, windowName := some ['w'], created_at := none,
        updated_at := none, content := [] } = Except.ok [sampleSyncLocal] := by
  exact deleteQuery_unmatched_noop [sampleSyncLocal] (.str ['l']) _ sampleSyncLocal
    rfl rfl (by decide)

/-- Witness for C8 at a concrete two-record store: deleting the parent keeps the
    descendant record. -/
theorem deleteCollection_removes_only_keys_witness :
    deleteCollection [sampleColl ['a'] (some []), sampleColl ['d'] (some ['/', 'a'])]
        (.str ['a']) =
      Except.ok [sampleColl ['d'] (some ['/', 'a'])] ∧
    sampleColl ['d'] (some ['/', 'a']) ∈
      deleteLocalCollection
        [sampleColl ['a'] (some []), sampleColl ['d'] (some ['/', 'a'])] (.str ['a']) := by
  have h := deleteCollection_removes_only_keys
      [sampleColl ['a'] (some []), sampleColl ['d'] (some ['/', 'a'])] (.str ['a'])
      (sampleColl ['a'] (some [])) rfl
  refine ⟨?_, ?_⟩
  · rw [h.1]; rfl
  · exact h.2 _ (by simp) ['/', 'a'] rfl (by decide) (by decide) (by decide)

/- C1: moveCollection -/

/-- C1 counterexample: moving collection "12" under "z" also rewrites the parentPath of
    the record with parentPath "/123" — a record that is neither the moved collection
    nor one of its descendants (its path merely string-prefix-extends "/12" without a
    segment boundary) — so more than N+1 records change and a record outside the moved
    subtree is relocated. -/
theorem moveLocalCollection_rewrites_non_descendant :
    moveLocalCollection
        [sampleColl ['1', '2'] (some []), sampleColl ['1', '2', '3'] (some []),
         sampleColl ['c'] (some ['/', '1', '2', '3']), sampleColl ['z'] (some [])]
        (.str ['1', '2']) (.str ['z']) =
      Except.ok
        [{ sampleColl ['1', '2'] (some []) with parentPath := some ['/', 'z'] },
         sampleColl ['1', '2', '3'] (some []),
         { sampleColl ['c'] (some ['/', '1', '2', '3']) with
             parentPath := some ['/', 'z', '/', '1', '2', '3'] },
         sampleColl ['z'] (some [])] ∧
    isDescRecord ['/', '1', '2'] (sampleColl ['c'] (some ['/', '1', '2', '3'])) = false ∧
    (sampleColl ['c'] (some ['/', '1', '2', '3'])).id ≠ some (.str ['1', '2']) := by
  refine ⟨rfl, by decide, by decide⟩

/-- A boundary descendant's path has the base path as a string prefix. -/
theorem isDescRecord_prefix (basePath : List Char) (r : Collection) (p : List Char)
    (hp : r.parentPath = some p) (h : isDescRecord basePath r = true) :
    basePath.isPrefixOf p = true := by
  unfold isDescRecord at h
  rw [hp] at h
  rcases (by simpa using h :
      p = basePath ∨ (basePath ++ [COLLECTION_PATH_SEPARATOR]).isPrefixOf p = true) with
    h1 | h1
  · subst h1
    exact List.isPrefixOf_iff_prefix.mpr (List.prefix_refl _)
  · exact List.isPrefixOf_iff_prefix.mpr
      ((List.prefix_append _ _).trans (List.isPrefixOf_iff_prefix.mp h1))

/-- A strictly longer extension is never a prefix of the base list. -/
theorem append_cons_not_prefix (a : List Char) (c : Char) (b : List Char) :
    (a ++ c :: b).isPrefixOf a = false := by
  rcases Bool.eq_false_or_eq_true ((a ++ c :: b).isPrefixOf a) with h | h
  · have hle := (List.isPrefixOf_iff_prefix.mp h).length_le
    simp at hle
  · exact h

/-- The id of a record returned by getCollectionByID matches the id or its alternate. -/
theorem getCollectionByID_id (st : Store) (cid : CollID) (c : Collection)
    (h : getCollectionByID st cid = some c) :
    c.id = some cid ∨ c.id = some (getAlternateCollectionID cid) := by
  unfold getCollectionByID at h
  cases hsg : storeGet st cid with
  | some c' =>
    rw [hsg] at h
    cases h
    exact Or.inl (by simpa using List.find?_some hsg)
  | none =>
    rw [hsg] at h
    exact Or.inr (by simpa using List.find?_some h)


/-- A strictly longer list is never a prefix of a shorter one. -/
theorem not_prefix_of_longer (a b : List Char) (h : a.length < b.length) :
    b.isPrefixOf a = false := by
  rcases Bool.eq_false_or_eq_true (b.isPrefixOf a) with hb | hb
  · have hle := (List.isPrefixOf_iff_prefix.mp hb).length_le
    omega
  · exact hb

theorem moveLocalCollection_subtree_update (st : Store) (cid newPid : CollID)
    (coll parent : Collection) (cpp : List Char)
    (hcoll : getCollectionByID st cid = some coll)
    (hparent : getCollectionByID st newPid = some parent)
    (hcpp : coll.parentPath = some cpp)
    (hsel : ∀ r ∈ st,
        (r.id = some cid ∨ r.id = some (getAlternateCollectionID cid)) → r = coll)
    (hbound : ∀ r ∈ st, ∀ p, r.parentPath = some p →
        (cpp ++ COLLECTION_PATH_SEPARATOR :: cid.render).isPrefixOf p = true →
        isDescRecord (cpp ++ COLLECTION_PATH_SEPARATOR :: cid.render) r = true)
    (huniq : (st.filter (fun r => r == coll)).length = 1) :
    moveLocalCollection st cid newPid =
      Except.ok (st.map (fun r =>
        if r == coll then
          { r with parentPath := some ((parent.parentPath.getD []) ++
              COLLECTION_PATH_SEPARATOR :: newPid.render) }
        else if isDescRecord (cpp ++ COLLECTION_PATH_SEPARATOR :: cid.render) r then
          { r with parentPath := r.parentPath.map (fun p =>
              ((parent.parentPath.getD []) ++ COLLECTION_PATH_SEPARATOR :: newPid.render)
                ++ p.drop cpp.length) }
        else r)) ∧
    (st.filter (fun r =>
        r == coll || isDescRecord (cpp ++ COLLECTION_PATH_SEPARATOR :: cid.render) r)).length =
      (st.filter (fun r =>
        isDescRecord (cpp ++ COLLECTION_PATH_SEPARATOR :: cid.render) r)).length + 1 := by
  have hrender : coll.parentPath.getD [] = cpp := by rw [hcpp]; rfl
  have hnotdesc : isDescRecord (cpp ++ COLLECTION_PATH_SEPARATOR :: cid.render) coll = false := by
    unfold isDescRecord
    rw [hcpp]
    have h1 : (cpp == cpp ++ COLLECTION_PATH_SEPARATOR :: cid.render) = false := by
      rcases Bool.eq_false_or_eq_true
          (cpp == cpp ++ COLLECTION_PATH_SEPARATOR :: cid.render) with h | h
      · have h' : cpp ++ ([] : List Char) = cpp ++ COLLECTION_PATH_SEPARATOR :: cid.render := by
          simpa using beq_iff_eq.mp h
        have := List.append_cancel_left h'
        simp at this
      · exact h
    have h2 : (cpp ++ COLLECTION_PATH_SEPARATOR ::
        (cid.render ++ [COLLECTION_PATH_SEPARATOR])).isPrefixOf cpp = false := by
      refine not_prefix_of_longer _ _ ?_
      simp
    simp [h1, h2]
  constructor
  · simp only [moveLocalCollection, hcoll, hparent, hrender]
    congr 1
    refine List.map_congr_left ?_
    intro r hr
    by_cases heq : r = coll
    · subst heq
      have hcolid := getCollectionByID_id st cid r hcoll
      have hcond : (r.id == some cid || r.id == some (getAlternateCollectionID cid)
          || (match r.parentPath with
              | some p => (cpp ++ COLLECTION_PATH_SEPARATOR :: cid.render).isPrefixOf p
              | none => false)) = true := by
        rcases hcolid with h1 | h1 <;> simp [h1]
      rw [if_pos hcond]
      have hself : (r == r) = true := by simp
      rw [if_pos hself]
      have hrf : replaceFirst cpp
          (parent.parentPath.getD [] ++ COLLECTION_PATH_SEPARATOR :: newPid.render) cpp =
          parent.parentPath.getD [] ++ COLLECTION_PATH_SEPARATOR :: newPid.render := by
        rw [replaceFirst_front _ _ _
          (List.isPrefixOf_iff_prefix.mpr (List.prefix_refl _))]
        simp
      rw [hcpp]
      simp [hrf]
    · have hid1 : (r.id == some cid) = false := by
        rcases Bool.eq_false_or_eq_true (r.id == some cid) with h1 | h1
        · exact absurd (hsel r hr (Or.inl (beq_iff_eq.mp h1))) heq
        · exact h1
      have hid2 : (r.id == some (getAlternateCollectionID cid)) = false := by
        rcases Bool.eq_false_or_eq_true (r.id == some (getAlternateCollectionID cid)) with h1 | h1
        · exact absurd (hsel r hr (Or.inr (beq_iff_eq.mp h1))) heq
        · exact h1
      have hreq : (r == coll) = false := by
        rcases Bool.eq_false_or_eq_true (r == coll) with h1 | h1
        · exact absurd (beq_iff_eq.mp h1) heq
        · exact h1
      by_cases hdesc : isDescRecord (cpp ++ COLLECTION_PATH_SEPARATOR :: cid.render) r = true
      · obtain ⟨p, hpp⟩ : ∃ p, r.parentPath = some p := by
          unfold isDescRecord at hdesc
          cases hx : r.parentPath with
          | none => rw [hx] at hdesc; simp at hdesc
          | some q => exact ⟨q, rfl⟩
        have hpre : (cpp ++ COLLECTION_PATH_SEPARATOR :: cid.render).isPrefixOf p = true :=
          isDescRecord_prefix _ r p hpp hdesc
        have hcpre : cpp.isPrefixOf p = true := by
          refine List.isPrefixOf_iff_prefix.mpr ?_
          exact (List.prefix_append _ _).trans (List.isPrefixOf_iff_prefix.mp hpre)
        have hcond : (r.id == some cid || r.id == some (getAlternateCollectionID cid)
            || (match r.parentPath with
                | some pp => (cpp ++ COLLECTION_PATH_SEPARATOR :: cid.render).isPrefixOf pp
                | none => false)) = true := by
          simp [hid1, hid2, hpp, hpre]
        have hrf : replaceFirst cpp
            (parent.parentPath.getD [] ++ COLLECTION_PATH_SEPARATOR :: newPid.render) p =
            (parent.parentPath.getD [] ++ COLLECTION_PATH_SEPARATOR :: newPid.render)
              ++ p.drop cpp.length :=
          replaceFirst_front _ _ _ hcpre
        rw [if_pos hcond, if_neg (by simp [hreq]), if_pos hdesc, hpp]
        simp [hrf]
      · have hcond : (r.id == some cid || r.id == some (getAlternateCollectionID cid)
            || (match r.parentPath with
                | some pp => (cpp ++ COLLECTION_PATH_SEPARATOR :: cid.render).isPrefixOf pp
                | none => false)) = false := by
          rcases hppcase : r.parentPath with _ | p
          · simp [hid1, hid2, hppcase]
          · have : (cpp ++ COLLECTION_PATH_SEPARATOR :: cid.render).isPrefixOf p = false := by
              rcases Bool.eq_false_or_eq_true
                  ((cpp ++ COLLECTION_PATH_SEPARATOR :: cid.render).isPrefixOf p) with h1 | h1
              · exact absurd (hbound r hr p hppcase h1) hdesc
              · exact h1
            simp [hid1, hid2, hppcase, this]
        rw [if_neg (by simp [hcond]), if_neg (by simp [hreq]),
          if_neg (by simp [Bool.not_eq_true] at hdesc ⊢; exact hdesc)]
  · have hdisj : ∀ r ∈ st, ¬((r == coll) = true ∧
        isDescRecord (cpp ++ COLLECTION_PATH_SEPARATOR :: cid.render) r = true) := by
      rintro r _ ⟨h1, h2⟩
      rw [beq_iff_eq.mp h1] at h2
      rw [hnotdesc] at h2
      exact Bool.false_ne_true h2
    rw [length_filter_or_disjoint st _ _ hdisj, huniq, Nat.add_comm]

/-- Witness for the amended C1 at a concrete store: a root collection with one
    descendant is moved under another root; exactly those two records change. -/
theorem moveLocalCollection_subtree_update_witness :
    moveLocalCollection
        [sampleColl ['1'] (some []), sampleColl ['c'] (some ['/', '1']),
         sampleColl ['z'] (some [])] (.str ['1']) (.str ['z']) =
      Except.ok
        [{ sampleColl ['1'] (some []) with parentPath := some ['/', 'z'] },
         { sampleColl ['c'] (some ['/', '1']) with parentPath := some ['/', 'z', '/', '1'] },
         sampleColl ['z'] (some [])] := by
  have h := moveLocalCollection_subtree_update
      [sampleColl ['1'] (some []), sampleColl ['c'] (some ['/', '1']),
       sampleColl ['z'] (some [])] (.str ['1']) (.str ['z'])
      (sampleColl ['1'] (some [])) (sampleColl ['z'] (some [])) []
      rfl rfl rfl (by decide) (by decide) (by decide)
  rw [h.1]
  rfl

/- String and path lemmas for the tree builder -/

/-- splitSep never returns an empty list of segments. -/
theorem splitSep_ne_nil (sep : Char) (s : List Char) : splitSep sep s ≠ [] := by
  cases s with
  | nil => simp [splitSep]
  | cons c rest =>
    simp only [splitSep]
    cases h : splitSep sep rest with
    | nil => simp
    | cons seg segs => by_cases hc : c = sep <;> simp [hc]

/-- Splitting at an explicit separator concatenates the two splits. -/
theorem splitSep_append_cons (sep : Char) (xs ys : List Char) :
    splitSep sep (xs ++ sep :: ys) = splitSep sep xs ++ splitSep sep ys := by
  induction xs with
  | nil =>
    simp only [List.nil_append, splitSep]
    cases h : splitSep sep ys with
    | nil => exact absurd h (splitSep_ne_nil sep ys)
    | cons seg segs => simp
  | cons c xs ih =>
    simp only [List.cons_append, splitSep, List.append_eq]
    rw [ih]
    cases h : splitSep sep xs with
    | nil => exact absurd h (splitSep_ne_nil sep xs)
    | cons seg segs => by_cases hc : c = sep <;> simp [hc]

/-- A separator-free string splits to the single segment equal to itself. -/
theorem splitSep_no_sep (sep : Char) (s : List Char) (h : ∀ c ∈ s, c ≠ sep) :
    splitSep sep s = [s] := by
  induction s with
  | nil => rfl
  | cons c rest ih =>
    have hc : c ≠ sep := h c (List.mem_cons_self _ _)
    have hr : splitSep sep rest = [rest] :=
      ih (fun x hx => h x (List.mem_cons_of_mem _ hx))
    simp [splitSep, hr, hc]

/-- getLastD of an append with a nonempty right part ignores the left part. -/
theorem getLastD_append_right {α : Type} (l1 l2 : List α) (h : l2 ≠ []) :
    ∀ d, (l1 ++ l2).getLastD d = l2.getLastD d := by
  induction l1 with
  | nil => intro d; rfl
  | cons a l1 ih =>
    intro d
    rw [List.cons_append, List.getLastD_cons, ih a]
    cases l2 with
    | nil => exact absurd rfl h
    | cons b l2 => rw [List.getLastD_cons, List.getLastD_cons]

/-- The last segment of a path extended by '/' and a separator-free id is that id. -/
theorem lastSegment_append (xs ys : List Char)
    (h : ∀ c ∈ ys, c ≠ COLLECTION_PATH_SEPARATOR) :
    lastSegment (xs ++ COLLECTION_PATH_SEPARATOR :: ys) = ys := by
  unfold lastSegment
  rw [splitSep_append_cons, splitSep_no_sep _ _ h,
    getLastD_append_right _ _ (by simp)]
  rfl

/-- Unpacking a good id: a string id, nonempty and separator-free. -/
theorem goodIdB_spec (c : Collection) (h : goodIdB c = true) :
    c.id = some (.str (idStrOf c)) ∧ idStrOf c ≠ [] ∧
      ∀ ch ∈ idStrOf c, ch ≠ COLLECTION_PATH_SEPARATOR := by
  unfold goodIdB at h
  cases hid : c.id with
  | none => rw [hid] at h; simp at h
  | some i =>
    cases i with
    | num n => rw [hid] at h; simp at h
    | str s =>
      rw [hid] at h
      simp at h
      have hs : idStrOf c = s := by unfold idStrOf; rw [hid]; rfl
      refine ⟨by rw [hs], by rw [hs]; exact h.1, ?_⟩
      intro ch hch heq
      subst heq
      rw [hs] at hch
      exact h.2 hch

/-- The derived parent id of a canonical child is the parent's stringified id. -/
theorem getParentCollectionId_child (c p : Collection) (hp : goodIdB p = true)
    (hc : c.parentPath = some (childPathOf p)) :
    getParentCollectionId c = some (idStrOf p) := by
  obtain ⟨-, hne, hsep⟩ := goodIdB_spec p hp
  have hl : lastSegment (childPathOf p) = idStrOf p := by
    unfold childPathOf
    exact lastSegment_append _ _ hsep
  simp [getParentCollectionId, hc, hl, hne]

/-- Filtering by a pointwise weaker predicate keeps at most as many elements. -/
theorem length_filter_le_imp {α : Type} (l : List α) (p q : α → Bool)
    (h : ∀ x ∈ l, p x = true → q x = true) :
    (l.filter p).length ≤ (l.filter q).length := by
  induction l with
  | nil => exact Nat.le_refl 0
  | cons a rest ih =>
    have hrest : ∀ x ∈ rest, p x = true → q x = true :=
      fun x hx => h x (List.mem_cons_of_mem _ hx)
    have hih := ih hrest
    rcases Bool.eq_false_or_eq_true (p a) with hp | hp <;>
      rcases Bool.eq_false_or_eq_true (q a) with hq | hq
    · simp [List.filter_cons, hp, hq]
      omega
    · exact absurd (h a (List.mem_cons_self _ _) hp) (by simp [hq])
    · simp [List.filter_cons, hp, hq]
      omega
    · simp [List.filter_cons, hp, hq]
      omega

/-- Filtering by a pointwise weaker predicate with a strict witness keeps strictly
    fewer elements. -/
theorem length_filter_lt_witness {α : Type} (l : List α) (p q : α → Bool)
    (h : ∀ x ∈ l, p x = true → q x = true) (a : α) (ha : a ∈ l) (hqa : q a = true)
    (hpa : p a = false) : (l.filter p).length < (l.filter q).length := by
  induction l with
  | nil => cases ha
  | cons b rest ih =>
    have hrest : ∀ x ∈ rest, p x = true → q x = true :=
      fun x hx => h x (List.mem_cons_of_mem _ hx)
    rcases List.mem_cons.mp ha with hab | hmem
    · subst hab
      have hle := length_filter_le_imp rest p q hrest
      simp [List.filter_cons, hpa, hqa]
      omega
    · have hih := ih hrest hmem
      rcases Bool.eq_false_or_eq_true (p b) with hp | hp <;>
        rcases Bool.eq_false_or_eq_true (q b) with hq | hq
      · simp [List.filter_cons, hp, hq]
        omega
      · exact absurd (h b (List.mem_cons_self _ _) hp) (by simp [hq])
      · simp [List.filter_cons, hp, hq]
        omega
      · simp [List.filter_cons, hp, hq]
        omega

/- Tree builder lemmas -/

/-- Membership in a flattened forest comes from one of the sibling subtrees. -/
theorem mem_flattenForest (ts : List CollectionTree) (acc : List Char) (e : Collection) :
    e ∈ flattenForest ts acc ↔ ∃ t ∈ ts, e ∈ getCollectionListFromTree t acc := by
  induction ts with
  | nil => simp [flattenForest]
  | cons t ts ih => simp [flattenForest, List.mem_append, ih]

/-- Characterization of attachment under a map key. -/
theorem childrenIn_spec (L : List Collection) (key : List Char) (d : Collection) :
    d ∈ childrenIn L key ↔
      d ∈ L ∧ strTruthy d.parentPath = true ∧ getParentCollectionId d = some key := by
  unfold childrenIn
  rw [List.mem_filter]
  simp [Bool.and_eq_true]

/-- In a canonical list, the records attached under c's id are exactly c's canonical
    children. -/
theorem childrenIn_canonical (L : List Collection)
    (hgood : ∀ c ∈ L, goodIdB c = true)
    (hnodup : (L.map idStrOf).Nodup)
    (hcanon : ∀ c ∈ L, c.parentPath = some [] ∨
      ∃ p ∈ L, c.parentPath = some (childPathOf p))
    (c d : Collection) (hc : c ∈ L) (hd : d ∈ childrenIn L (idStrOf c)) :
    d ∈ L ∧ d.parentPath = some (childPathOf c) := by
  obtain ⟨hdL, htr, hpid⟩ := (childrenIn_spec L (idStrOf c) d).mp hd
  rcases hcanon d hdL with hroot | ⟨p, hpL, hpp⟩
  · rw [hroot] at htr
    simp [strTruthy] at htr
  · have hp := getParentCollectionId_child d p (hgood p hpL) hpp
    rw [hp] at hpid
    have hide : idStrOf p = idStrOf c := Option.some.inj hpid
    have hpc : p = c := List.inj_on_of_nodup_map hnodup hpL hc hide
    exact ⟨hdL, by rw [hpp, hpc]⟩

/-- A canonical child of c is attached under c's id. -/
theorem mem_childrenIn (L : List Collection)
    (hgood : ∀ c ∈ L, goodIdB c = true)
    (c d : Collection) (hc : c ∈ L) (hdL : d ∈ L)
    (hpp : d.parentPath = some (childPathOf c)) : d ∈ childrenIn L (idStrOf c) := by
  refine (childrenIn_spec _ _ _).mpr
    ⟨hdL, ?_, getParentCollectionId_child d c (hgood c hc) hpp⟩
  rw [hpp]
  unfold strTruthy childPathOf
  simp

/-- A canonical child's path is strictly longer than its parent's. -/
theorem plen_child (c d : Collection) (hpp : d.parentPath = some (childPathOf c)) :
    plen c < plen d := by
  unfold plen
  rw [hpp]
  unfold childPathOf
  simp

/-- Walking to a child strictly decreases the depth measure. -/
theorem measureOf_lt (L : List Collection) (c d : Collection) (hd : d ∈ L)
    (h : plen c < plen d) : measureOf L d < measureOf L c := by
  unfold measureOf
  refine length_filter_lt_witness L _ _ ?_ d hd ?_ ?_
  · intro x _ hx
    simp only [decide_eq_true_eq] at hx ⊢
    omega
  · simp only [decide_eq_true_eq]
    exact h
  · simp

/-- The depth measure of a member is below the length of the list. -/
theorem measureOf_lt_length (L : List Collection) (c : Collection) (hc : c ∈ L) :
    measureOf L c < L.length := by
  unfold measureOf
  have h := length_filter_lt_witness L (fun d => plen c < plen d) (fun _ => true)
      (by intro x _ _; rfl) c hc rfl (by simp)
  simpa [List.filter_true] using h

/-- The flatten of a built node starts with the record rebuilt from the node's copied
    fields and the accumulated path. -/
theorem flatten_buildNode_head (L : List Collection) (f : Nat) (c : Collection)
    (acc : List Char) :
    ∃ rest, getCollectionListFromTree (buildNode L f c) acc =
      rebuiltRec c acc :: rest := by
  cases f with
  | zero =>
    refine ⟨flattenForest [] (acc ++ COLLECTION_PATH_SEPARATOR :: idStrOf c), ?_⟩
    simp [buildNode, getCollectionListFromTree, mkNodeRec, rebuiltRec]
  | succ f =>
    refine ⟨flattenForest ((childrenIn L (idStrOf c)).map (buildNode L f))
      (acc ++ COLLECTION_PATH_SEPARATOR :: idStrOf c), ?_⟩
    simp [buildNode, getCollectionListFromTree, mkNodeRec, rebuiltRec]

/-- Rebuilding a good record at its own stored path gives the record back. -/
theorem head_eq_self (c : Collection) (hgood : goodIdB c = true) (pp : List Char)
    (hpp : c.parentPath = some pp) : rebuiltRec c pp = c := by
  have h1 := (goodIdB_spec c hgood).1
  unfold rebuiltRec
  cases c with
  | mk cid title ppf sid qs ca ua =>
    rw [Collection.mk.injEq]
    exact ⟨h1.symm, rfl, hpp.symm, rfl, rfl, rfl, rfl⟩

/-- Soundness of the subtree flatten: in a canonical list, every record emitted by
    flattening the node built for a member c at c's own stored path is itself a member
    of the list, fields untouched. -/
theorem flatten_buildNode_mem_L (L : List Collection)
    (hgood : ∀ c ∈ L, goodIdB c = true)
    (hnodup : (L.map idStrOf).Nodup)
    (hcanon : ∀ c ∈ L, c.parentPath = some [] ∨
      ∃ p ∈ L, c.parentPath = some (childPathOf p)) :
    ∀ f c, c ∈ L → measureOf L c < f →
      ∀ e ∈ getCollectionListFromTree (buildNode L f c) (c.parentPath.getD []), e ∈ L := by
  intro f
  induction f with
  | zero => intro c _ h; exact absurd h (Nat.not_lt_zero _)
  | succ f ih =>
    intro c hc hm e he
    obtain ⟨pp, hpp⟩ : ∃ pp, c.parentPath = some pp := by
      rcases hcanon c hc with h | ⟨p, -, h⟩ <;> exact ⟨_, h⟩
    simp only [buildNode, getCollectionListFromTree, mkNodeRec] at he
    rcases List.mem_cons.mp he with hhead | htail
    · have heads := head_eq_self c (hgood c hc) pp hpp
      rw [hhead]
      rw [show c.parentPath.getD [] = pp from by rw [hpp]; rfl]
      show rebuiltRec c pp ∈ L
      rw [heads]
      exact hc
    · obtain ⟨tn, htn, het⟩ := (mem_flattenForest _ _ _).mp htail
      obtain ⟨d, hdk, rfl⟩ := List.mem_map.mp htn
      obtain ⟨hdL, hdpp⟩ := childrenIn_canonical L hgood hnodup hcanon c d hc hdk
      have hmd := measureOf_lt L c d hdL (plen_child c d hdpp)
      refine ih d hdL (by omega) e ?_
      have hacc : d.parentPath.getD [] = childPathOf c := by rw [hdpp]; rfl
      rw [hacc]
      exact het

/-- The tree built for a member does not depend on the fuel, once the fuel exceeds the
    depth measure. -/
theorem buildNode_fuel_irrel (L : List Collection)
    (hgood : ∀ c ∈ L, goodIdB c = true)
    (hnodup : (L.map idStrOf).Nodup)
    (hcanon : ∀ c ∈ L, c.parentPath = some [] ∨
      ∃ p ∈ L, c.parentPath = some (childPathOf p)) :
    ∀ f g c, c ∈ L → measureOf L c < f → measureOf L c < g →
      buildNode L f c = buildNode L g c := by
  intro f
  induction f with
  | zero => intro g c _ h; exact absurd h (Nat.not_lt_zero _)
  | succ f ih =>
    intro g c hc hf hg
    cases g with
    | zero => exact absurd hg (Nat.not_lt_zero _)
    | succ g =>
      have hkids : (childrenIn L (idStrOf c)).map (buildNode L f) =
          (childrenIn L (idStrOf c)).map (buildNode L g) := by
        refine List.map_congr_left ?_
        intro d hd
        obtain ⟨hdL, hdpp⟩ := childrenIn_canonical L hgood hnodup hcanon c d hc hd
        have hmd := measureOf_lt L c d hdL (plen_child c d hdpp)
        exact ih g d hdL (by omega) (by omega)
      simp only [buildNode, hkids]

/-- Completeness of the forest flatten: everything emitted by the subtree of a member at
    its stored path (with enough fuel) is emitted by the full forest of
    getCollectionTrees. -/
theorem mem_flatten_forest_of_subtree (L : List Collection)
    (hgood : ∀ c ∈ L, goodIdB c = true)
    (hnodup : (L.map idStrOf).Nodup)
    (hcanon : ∀ c ∈ L, c.parentPath = some [] ∨
      ∃ p ∈ L, c.parentPath = some (childPathOf p)) :
    ∀ n c, c ∈ L → plen c = n → ∀ e f, measureOf L c < f →
      e ∈ getCollectionListFromTree (buildNode L f c) (c.parentPath.getD []) →
      e ∈ flattenForest ((L.filter isRootJS).map (buildNode L L.length)) [] := by
  intro n
  induction n using Nat.strong_induction_on with
  | _ n ihn =>
    intro c hc hpl e f hf he
    rcases hcanon c hc with hroot | ⟨p, hpL, hpp⟩
    · have hrootJS : isRootJS c = true := by simp [isRootJS, hroot, strTruthy]
      have hcr : c ∈ L.filter isRootJS := List.mem_filter.mpr ⟨hc, hrootJS⟩
      rw [buildNode_fuel_irrel L hgood hnodup hcanon f L.length c hc hf
        (measureOf_lt_length L c hc)] at he
      rw [show c.parentPath.getD [] = [] from by rw [hroot]; rfl] at he
      exact (mem_flattenForest _ _ _).mpr
        ⟨buildNode L L.length c, List.mem_map_of_mem _ hcr, he⟩
    · have hplp : plen p < plen c := plen_child p c hpp
      have hmcp : measureOf L c < measureOf L p := measureOf_lt L p c hc hplp
      have hcIn : c ∈ childrenIn L (idStrOf p) := mem_childrenIn L hgood p c hpL hc hpp
      have he' : e ∈ getCollectionListFromTree (buildNode L (measureOf L p) c)
          (c.parentPath.getD []) := by
        rw [← buildNode_fuel_irrel L hgood hnodup hcanon f (measureOf L p) c hc hf hmcp]
        exact he
      have hep : e ∈ getCollectionListFromTree (buildNode L (measureOf L p + 1) p)
          (p.parentPath.getD []) := by
        simp only [buildNode, getCollectionListFromTree, mkNodeRec]
        refine List.mem_cons_of_mem _ ?_
        refine (mem_flattenForest _ _ _).mpr ⟨buildNode L (measureOf L p) c,
          List.mem_map_of_mem _ hcIn, ?_⟩
        have hacc : c.parentPath.getD [] = childPathOf p := by rw [hpp]; rfl
        rw [hacc] at he'
        exact he'
      exact ihn (plen p) (by omega) p hpL rfl e (measureOf L p + 1)
        (Nat.lt_succ_self _) hep

/-- Every record flattened out of a built subtree carries the stringified id of some
    member that is either the subtree's root or has a parent id resolving in the
    list. -/
theorem flatten_buildNode_ids (L : List Collection) :
    ∀ f c acc, c ∈ L →
      ∀ e ∈ getCollectionListFromTree (buildNode L f c) acc,
        ∃ d ∈ L, e.id = some (.str (idStrOf d)) ∧
          (d = c ∨ ∃ q ∈ L, getParentCollectionId d = some (idStrOf q)) := by
  intro f
  induction f with
  | zero =>
    intro c acc hc e he
    simp only [buildNode, getCollectionListFromTree, mkNodeRec, flattenForest] at he
    rcases List.mem_cons.mp he with hhead | hnil
    · exact ⟨c, hc, by rw [hhead], Or.inl rfl⟩
    · cases hnil
  | succ f ih =>
    intro c acc hc e he
    simp only [buildNode, getCollectionListFromTree, mkNodeRec] at he
    rcases List.mem_cons.mp he with hhead | htail
    · exact ⟨c, hc, by rw [hhead], Or.inl rfl⟩
    · obtain ⟨tn, htn, het⟩ := (mem_flattenForest _ _ _).mp htail
      obtain ⟨d', hdk, rfl⟩ := List.mem_map.mp htn
      obtain ⟨hd'L, -, hpid⟩ := (childrenIn_spec L (idStrOf c) d').mp hdk
      obtain ⟨d, hdL, hid, hcase⟩ := ih d' _ hd'L e het
      refine ⟨d, hdL, hid, ?_⟩
      rcases hcase with rfl | hres
      · exact Or.inr ⟨c, hc, hpid⟩
      · exact Or.inr hres

/-- A record with a derived parent id has a truthy parentPath. -/
theorem strTruthy_of_pid (c : Collection) (pid : List Char)
    (h : getParentCollectionId c = some pid) : strTruthy c.parentPath = true := by
  unfold getParentCollectionId at h
  cases hpp : c.parentPath with
  | none => rw [hpp] at h; simp at h
  | some p =>
    rw [hpp] at h
    by_cases hl : lastSegment p = []
    · simp [hl] at h
    · have hpne : p ≠ [] := by
        intro hnil
        subst hnil
        exact hl rfl
      simp [strTruthy, hpne]

/-- C4 counterexample: a collection whose derived parent id resolves to no collection of
    the input list is dropped from the forest entirely — the returned forest is empty —
    instead of being treated as a root. -/
theorem getCollectionTrees_drops_orphan :
    getCollectionTrees [sampleColl ['a'] (some ['/', 'z'])] = Except.ok [] ∧
    getParentCollectionId (sampleColl ['a'] (some ['/', 'z'])) = some ['z'] ∧
    (∀ p ∈ [sampleColl ['a'] (some ['/', 'z'])], idStrOf p ≠ ['z']) := by
  refine ⟨rfl, by decide, by decide⟩

/-- C4 amended: with truthy, pairwise-distinct stringified ids, getCollectionTrees
    succeeds; a collection with a falsy (empty/undefined) parentPath is a root and its
    id appears in the flattened forest; a collection whose derived parent id does not
    resolve to any input collection is omitted from the forest (its id appears
    nowhere), rather than being treated as a root. -/
theorem getCollectionTrees_roots_and_orphans (L : List Collection)
    (hids : ∀ c ∈ L, (match c.id with | some i => i.truthy | none => false) = true)
    (hnodup : (L.map idStrOf).Nodup) :
    ∃ ts, getCollectionTrees L = Except.ok ts ∧
      (∀ c ∈ L, strTruthy c.parentPath = false →
        some (CollID.str (idStrOf c)) ∈ (flattenForest ts []).map Collection.id) ∧
      (∀ c ∈ L, ∀ pid, getParentCollectionId c = some pid →
        (∀ p ∈ L, idStrOf p ≠ pid) →
        some (CollID.str (idStrOf c)) ∉ (flattenForest ts []).map Collection.id) := by
  have hok : getCollectionTrees L =
      Except.ok ((L.filter isRootJS).map (buildNode L L.length)) := by
    unfold getCollectionTrees
    rw [if_pos (List.all_eq_true.mpr hids)]
  refine ⟨_, hok, ?_, ?_⟩
  · intro c hc hfalsy
    have hroot : isRootJS c = true := by simp [isRootJS, hfalsy]
    have hcr : c ∈ L.filter isRootJS := List.mem_filter.mpr ⟨hc, hroot⟩
    obtain ⟨rest, hrest⟩ := flatten_buildNode_head L L.length c []
    have hmem : rebuiltRec c [] ∈
        flattenForest ((L.filter isRootJS).map (buildNode L L.length)) [] := by
      refine (mem_flattenForest _ _ _).mpr ⟨buildNode L L.length c,
        List.mem_map_of_mem _ hcr, ?_⟩
      rw [hrest]
      exact List.mem_cons_self _ _
    exact List.mem_map.mpr ⟨_, hmem, rfl⟩
  · intro c hc pid hpid horph hmem
    obtain ⟨e, hemem, heid⟩ := List.mem_map.mp hmem
    obtain ⟨tn, htn, het⟩ := (mem_flattenForest _ _ _).mp hemem
    obtain ⟨r, hrF, rfl⟩ := List.mem_map.mp htn
    have hrL : r ∈ L := (List.mem_filter.mp hrF).1
    have hrroot : isRootJS r = true := (List.mem_filter.mp hrF).2
    obtain ⟨d, hdL, hdid, hcase⟩ := flatten_buildNode_ids L L.length r [] hrL e het
    have hdc : d = c := by
      apply List.inj_on_of_nodup_map hnodup hdL hc
      exact CollID.str.inj (Option.some.inj (hdid.symm.trans heid))
    rw [hdc] at hcase
    rcases hcase with hcr' | ⟨q, hqL, hq⟩
    · rw [← hcr'] at hrroot
      unfold isRootJS at hrroot
      rw [strTruthy_of_pid c pid hpid, hpid] at hrroot
      simp at hrroot
    · exact horph q hqL (Option.some.inj (hq.symm.trans hpid))

/-- Witness for the amended C4 at a concrete two-record store with one root and one
    orphan: the root's id appears in the flattened forest, the orphan's id does not. -/
theorem getCollectionTrees_roots_and_orphans_witness :
    ∃ ts, getCollectionTrees
        [sampleColl ['r'] (some []), sampleColl ['a'] (some ['/', 'z'])] =
        Except.ok ts ∧
      (∀ c ∈ [sampleColl ['r'] (some []), sampleColl ['a'] (some ['/', 'z'])],
        strTruthy c.parentPath = false →
        some (CollID.str (idStrOf c)) ∈ (flattenForest ts []).map Collection.id) ∧
      (∀ c ∈ [sampleColl ['r'] (some []), sampleColl ['a'] (some ['/', 'z'])],
        ∀ pid, getParentCollectionId c = some pid →
        (∀ p ∈ [sampleColl ['r'] (some []), sampleColl ['a'] (some ['/', 'z'])],
          idStrOf p ≠ pid) →
        some (CollID.str (idStrOf c)) ∉ (flattenForest ts []).map Collection.id) :=
  getCollectionTrees_roots_and_orphans _ (by decide) (by decide)

/-- C5 counterexample: a list whose single collection is stored under the numeric id 42
    round-trips (getCollectionListFromTree of getCollectionTrees) to a record carrying
    the string id "42" — the set of ids is not preserved, because the tree builder
    stringifies every id. -/
theorem roundTrip_stringifies_numeric_ids :
    (getCollectionTrees [sampleNumColl]).map (fun ts => flattenForest ts []) =
      Except.ok [{ sampleNumColl with id := some (.str ['4', '2']) }] ∧
    some (CollID.str ['4', '2']) ≠ sampleNumColl.id := by
  constructor
  · have h1 : getCollectionTrees [sampleNumColl] =
        Except.ok [buildNode [sampleNumColl] 1 sampleNumColl] := rfl
    rw [h1]
    show Except.ok (flattenForest [buildNode [sampleNumColl] 1 sampleNumColl] []) = _
    congr 1
    rw [show buildNode [sampleNumColl] 1 sampleNumColl =
      ({ id := ['4', '2'], title := ['n'], parentPath := some [], serverId := none,
         queries := [], created_at := some 0, updated_at := some 0,
         collections := [] } : CollectionTree) from rfl]
    simp [flattenForest, getCollectionListFromTree, sampleNumColl]
  · decide

/-- C5 amended: for a canonical flat list — every record has a good (string, nonempty,
    separator-free) id, stringified ids are pairwise distinct, and every record is a
    root (parentPath '') or the literal canonical child of some record of the list —
    flattening the built trees restores exactly the members of the list: every emitted
    record is a member (all fields equal, including parentPath), and every member is
    emitted. -/
theorem getCollectionTrees_flatten_roundTrip (L : List Collection)
    (hgood : ∀ c ∈ L, goodIdB c = true)
    (hnodup : (L.map idStrOf).Nodup)
    (hcanon : ∀ c ∈ L, c.parentPath = some [] ∨
      ∃ p ∈ L, c.parentPath = some (childPathOf p)) :
    ∃ ts, getCollectionTrees L = Except.ok ts ∧
      (∀ e ∈ flattenForest ts [], e ∈ L) ∧ (∀ c ∈ L, c ∈ flattenForest ts []) := by
  have hids : ∀ c ∈ L, (match c.id with | some i => i.truthy | none => false) = true := by
    intro c hc
    obtain ⟨h1, h2, -⟩ := goodIdB_spec c (hgood c hc)
    rw [h1]
    simp [CollID.truthy, h2]
  have hok : getCollectionTrees L =
      Except.ok ((L.filter isRootJS).map (buildNode L L.length)) := by
    unfold getCollectionTrees
    rw [if_pos (List.all_eq_true.mpr hids)]
  refine ⟨_, hok, ?_, ?_⟩
  · intro e he
    obtain ⟨tn, htn, het⟩ := (mem_flattenForest _ _ _).mp he
    obtain ⟨r, hrF, rfl⟩ := List.mem_map.mp htn
    have hrL : r ∈ L := (List.mem_filter.mp hrF).1
    have hrroot : isRootJS r = true := (List.mem_filter.mp hrF).2
    have hrpp : r.parentPath = some [] := by
      rcases hcanon r hrL with h | ⟨p, hpL, hpp⟩
      · exact h
      · exfalso
        have h1 : strTruthy r.parentPath = true := by
          rw [hpp]
          unfold strTruthy childPathOf
          simp
        have h2 : getParentCollectionId r = some (idStrOf p) :=
          getParentCollectionId_child r p (hgood p hpL) hpp
        unfold isRootJS at hrroot
        rw [h1, h2] at hrroot
        simp at hrroot
    refine flatten_buildNode_mem_L L hgood hnodup hcanon L.length r hrL
      (measureOf_lt_length L r hrL) e ?_
    rw [show r.parentPath.getD [] = [] from by rw [hrpp]; rfl]
    exact het
  · intro c hc
    obtain ⟨pp, hpp⟩ : ∃ pp, c.parentPath = some pp := by
      rcases hcanon c hc with h | ⟨p, -, h⟩ <;> exact ⟨_, h⟩
    obtain ⟨rest, hrest⟩ :=
      flatten_buildNode_head L (measureOf L c + 1) c (c.parentPath.getD [])
    have hch : c ∈ getCollectionListFromTree (buildNode L (measureOf L c + 1) c)
        (c.parentPath.getD []) := by
      rw [hrest]
      have hpd : c.parentPath = some (c.parentPath.getD []) := by rw [hpp]; rfl
      rw [head_eq_self c (hgood c hc) _ hpd]
      exact List.mem_cons_self _ _
    exact mem_flatten_forest_of_subtree L hgood hnodup hcanon (plen c) c hc rfl c
      (measureOf L c + 1) (Nat.lt_succ_self _) hch

/-- Witness for the amended C5 at a concrete canonical list: a root and its child
    round-trip to exactly themselves. -/
theorem getCollectionTrees_flatten_roundTrip_witness :
    ∃ ts, getCollectionTrees
        [sampleColl ['r'] (some []), sampleColl ['k'] (some ['/', 'r'])] =
        Except.ok ts ∧
      (∀ e ∈ flattenForest ts [],
        e ∈ [sampleColl ['r'] (some []), sampleColl ['k'] (some ['/', 'r'])]) ∧
      (∀ c ∈ [sampleColl ['r'] (some []), sampleColl ['k'] (some ['/', 'r'])],
        c ∈ flattenForest ts []) :=
  getCollectionTrees_flatten_roundTrip _ (by decide) (by decide) (by decide)

/- Remap (import id reassignment) lemmas -/

/-- pathOf distributes over list append. -/
theorem pathOf_append (u : Nat → List Char) (a b : List Nat) :
    pathOf u (a ++ b) = pathOf u a ++ pathOf u b := by
  induction a with
  | nil => rfl
  | cons i a ih => simp [pathOf, ih]

/-- A uuid-index path is empty or starts with the separator. -/
theorem pathOf_shape (u : Nat → List Char) (l : List Nat) :
    pathOf u l = [] ∨ ∃ w, pathOf u l = COLLECTION_PATH_SEPARATOR :: w := by
  cases l with
  | nil => exact Or.inl rfl
  | cons i rest => exact Or.inr ⟨_, rfl⟩

/-- Cutting a separator-free segment off the front of a path-shaped tail is
    unambiguous. -/
theorem seg_extract : ∀ (x y r s : List Char),
    (∀ c ∈ x, c ≠ COLLECTION_PATH_SEPARATOR) →
    (∀ c ∈ y, c ≠ COLLECTION_PATH_SEPARATOR) →
    (r = [] ∨ ∃ w, r = COLLECTION_PATH_SEPARATOR :: w) →
    (s = [] ∨ ∃ w, s = COLLECTION_PATH_SEPARATOR :: w) →
    x ++ r = y ++ s → x = y ∧ r = s := by
  intro x
  induction x with
  | nil =>
    intro y r s hx hy hr hs h
    cases y with
    | nil => exact ⟨rfl, by simpa using h⟩
    | cons cy y' =>
      exfalso
      rcases hr with hr | ⟨w, hr⟩
      · subst hr
        simp at h
      · subst hr
        have hcy : COLLECTION_PATH_SEPARATOR = cy := by
          have h' : COLLECTION_PATH_SEPARATOR :: w = cy :: (y' ++ s) := by simpa using h
          exact (List.cons_eq_cons.mp h').1
        exact hy cy (List.mem_cons_self _ _) hcy.symm
  | cons cx x' ih =>
    intro y r s hx hy hr hs h
    cases y with
    | nil =>
      exfalso
      rcases hs with hs | ⟨w, hs⟩
      · subst hs
        simp at h
      · subst hs
        have hcx : cx = COLLECTION_PATH_SEPARATOR := by
          have h' : cx :: (x' ++ r) = COLLECTION_PATH_SEPARATOR :: w := by simpa using h
          exact (List.cons_eq_cons.mp h').1
        exact hx cx (List.mem_cons_self _ _) hcx
    | cons cy y' =>
      have h' : cx :: (x' ++ r) = cy :: (y' ++ s) := by simpa using h
      obtain ⟨h1, h2⟩ := List.cons_eq_cons.mp h'
      obtain ⟨hxy, hrs⟩ := ih y' r s (fun c hc => hx c (List.mem_cons_of_mem _ hc))
        (fun c hc => hy c (List.mem_cons_of_mem _ hc)) hr hs h2
      exact ⟨by rw [h1, hxy], hrs⟩

/-- With an injective, nonempty, separator-free uuid supply, pathOf is injective. -/
theorem pathOf_inj (u : Nat → List Char) (hinj : ∀ i j, u i = u j → i = j)
    (hgood : ∀ i, u i ≠ [] ∧ ∀ ch ∈ u i, ch ≠ COLLECTION_PATH_SEPARATOR) :
    ∀ a b, pathOf u a = pathOf u b → a = b := by
  intro a
  induction a with
  | nil =>
    intro b h
    cases b with
    | nil => rfl
    | cons j b' => exact absurd h.symm (by simp [pathOf])
  | cons i a' ih =>
    intro b h
    cases b with
    | nil => simp [pathOf] at h
    | cons j b' =>
      simp only [pathOf] at h
      have h' : u i ++ pathOf u a' = u j ++ pathOf u b' := by
        exact (List.cons_eq_cons.mp h).2
      obtain ⟨hseg, hrest⟩ := seg_extract (u i) (u j) (pathOf u a') (pathOf u b')
        (hgood i).2 (hgood j).2 (pathOf_shape u a') (pathOf_shape u b') h'
      rw [hinj i j hseg, ih b' hrest]

mutual
/-- The remap equals the instantiation of its uuid-independent skeleton. -/
theorem remapT_inst (u : Nat → List Char) (t : CollectionTree) (idxs : List Nat)
    (k : Nat) :
    remapCollectionIDsToCollectionList u t (pathOf u idxs) k =
      ((remapIdx t idxs k).1.map (instEntry u), (remapIdx t idxs k).2) := by
  cases t with
  | mk tid ttitle tpp tsid tqs tca tua kids =>
    simp only [remapCollectionIDsToCollectionList, remapIdx]
    rw [show pathOf u idxs ++ COLLECTION_PATH_SEPARATOR :: u k = pathOf u (idxs ++ [k])
      from by rw [pathOf_append]; simp [pathOf]]
    rw [remapForest_inst u kids (idxs ++ [k]) (k + 1)]
    simp [instEntry]
termination_by sizeOf t
decreasing_by cases t; simp; try omega

/-- Forest version of remapT_inst. -/
theorem remapForest_inst (u : Nat → List Char) (ts : List CollectionTree)
    (idxs : List Nat) (k : Nat) :
    remapForest u ts (pathOf u idxs) k =
      ((remapIdxs ts idxs k).1.map (instEntry u), (remapIdxs ts idxs k).2) := by
  cases ts with
  | nil => simp [remapForest, remapIdxs]
  | cons t ts' =>
    simp only [remapForest, remapIdxs]
    rw [remapT_inst u t idxs k, remapForest_inst u ts' idxs (remapIdx t idxs k).2]
    simp
termination_by sizeOf ts
decreasing_by all_goals (simp; try omega)
end

/-- range' glueing used for the pre-order counter indices. -/
theorem range'_glue : ∀ (a : Nat) (b k : Nat),
    List.range' k a ++ List.range' (k + a) b = List.range' k (a + b) := by
  intro a
  induction a with
  | zero => intro b k; simp
  | succ a ih =>
    intro b k
    rw [List.range'_succ]
    rw [show a + 1 + b = (a + b) + 1 from by omega, List.range'_succ]
    rw [show k + (a + 1) = (k + 1) + a from by omega]
    simp only [List.cons_append]
    rw [ih b (k + 1)]

mutual
/-- The skeleton assigns pre-order counter indices: the entries of a subtree carry
    exactly the indices k, k+1, … up to the returned counter, in order. -/
theorem remapIdx_range (t : CollectionTree) (idxs : List Nat) (k : Nat) :
    k < (remapIdx t idxs k).2 ∧
    (remapIdx t idxs k).1.map (fun e => e.2.1) =
      List.range' k ((remapIdx t idxs k).2 - k) := by
  cases t with
  | mk tid ttitle tpp tsid tqs tca tua kids =>
    have h := remapIdxs_range kids (idxs ++ [k]) (k + 1)
    simp only [remapIdx]
    refine ⟨by omega, ?_⟩
    simp only [List.map_cons]
    rw [h.2]
    rw [show (remapIdxs kids (idxs ++ [k]) (k + 1)).2 - k =
      ((remapIdxs kids (idxs ++ [k]) (k + 1)).2 - (k + 1)) + 1 from by omega]
    rw [List.range'_succ]
termination_by sizeOf t
decreasing_by cases t; simp; try omega

/-- Forest version of remapIdx_range. -/
theorem remapIdxs_range (ts : List CollectionTree) (idxs : List Nat) (k : Nat) :
    k ≤ (remapIdxs ts idxs k).2 ∧
    (remapIdxs ts idxs k).1.map (fun e => e.2.1) =
      List.range' k ((remapIdxs ts idxs k).2 - k) := by
  cases ts with
  | nil => simp [remapIdxs]
  | cons t ts' =>
    have h1 := remapIdx_range t idxs k
    have h2 := remapIdxs_range ts' idxs (remapIdx t idxs k).2
    simp only [remapIdxs]
    refine ⟨by omega, ?_⟩
    rw [List.map_append, h1.2, h2.2]
    have hg := range'_glue ((remapIdx t idxs k).2 - k)
      ((remapIdxs ts' idxs (remapIdx t idxs k).2).2 - (remapIdx t idxs k).2) k
    rw [show k + ((remapIdx t idxs k).2 - k) = (remapIdx t idxs k).2 from by omega] at hg
    rw [hg]
    congr 1
    omega
termination_by sizeOf ts
decreasing_by all_goals (simp; try omega)
end

mutual
/-- Every skeleton entry is either the subtree's own root (ancestors = idxs) or has its
    parent entry inside the same subtree's entry list. -/
theorem remapIdx_parent (t : CollectionTree) (idxs : List Nat) (k : Nat) :
    ∀ e ∈ (remapIdx t idxs k).1,
      e.2.2 = idxs ∨ ∃ ep ∈ (remapIdx t idxs k).1, e.2.2 = ep.2.2 ++ [ep.2.1] := by
  cases t with
  | mk tid ttitle tpp tsid tqs tca tua kids =>
    intro e he
    simp only [remapIdx] at he ⊢
    rcases List.mem_cons.mp he with rfl | hsub
    · exact Or.inl rfl
    · rcases remapIdxs_parent kids (idxs ++ [k]) (k + 1) e hsub with h | ⟨ep, hep, he2⟩
      · refine Or.inr ⟨(CollectionTree.mk tid ttitle tpp tsid tqs tca tua kids, k, idxs),
          List.mem_cons_self _ _, ?_⟩
        exact h
      · exact Or.inr ⟨ep, List.mem_cons_of_mem _ hep, he2⟩
termination_by sizeOf t
decreasing_by cases t; simp; try omega

/-- Forest version of remapIdx_parent. -/
theorem remapIdxs_parent (ts : List CollectionTree) (idxs : List Nat) (k : Nat) :
    ∀ e ∈ (remapIdxs ts idxs k).1,
      e.2.2 = idxs ∨ ∃ ep ∈ (remapIdxs ts idxs k).1, e.2.2 = ep.2.2 ++ [ep.2.1] := by
  cases ts with
  | nil => intro e he; simp [remapIdxs] at he
  | cons t ts' =>
    intro e he
    simp only [remapIdxs] at he ⊢
    rcases List.mem_append.mp he with h1 | h2
    · rcases remapIdx_parent t idxs k e h1 with h | ⟨ep, hep, he2⟩
      · exact Or.inl h
      · exact Or.inr ⟨ep, List.mem_append_left _ hep, he2⟩
    · rcases remapIdxs_parent ts' idxs (remapIdx t idxs k).2 e h2 with h | ⟨ep, hep, he2⟩
      · exact Or.inl h
      · exact Or.inr ⟨ep, List.mem_append_right _ hep, he2⟩
termination_by sizeOf ts
decreasing_by all_goals (simp; try omega)
end

/-- childPathOf of an instantiated entry is the path of its extended index list. -/
theorem childPathOf_instEntry (u : Nat → List Char) (e : CollectionTree × Nat × List Nat) :
    childPathOf (instEntry u e) = pathOf u (e.2.2 ++ [e.2.1]) := by
  unfold childPathOf instEntry idStrOf CollID.render
  rw [pathOf_append]
  simp [pathOf]

/-- C6: remapCollectionIDsToCollectionList assigns every node a fresh id (a uuid value,
    never one of the document's original ids, pairwise distinct), and every child's
    parentPath ends in the REASSIGNED id of another record of the same output (never an
    original id); two runs over the same document with disjoint uuid supplies yield
    lists that agree on every field except id/parentPath and have the same parent/child
    shape position-by-position, while sharing no ids. -/
theorem remapCollectionIDs_fresh_structural (t : CollectionTree)
    (u1 u2 : Nat → List Char) (L1 L2 : List Collection)
    (hL1 : L1 = (remapCollectionIDsToCollectionList u1 t [] 0).1)
    (hL2 : L2 = (remapCollectionIDsToCollectionList u2 t [] 0).1)
    (hinj1 : ∀ i j, u1 i = u1 j → i = j)
    (hinj2 : ∀ i j, u2 i = u2 j → i = j)
    (hdisj : ∀ i j, u1 i ≠ u2 j)
    (hgood1 : ∀ i, u1 i ≠ [] ∧ ∀ ch ∈ u1 i, ch ≠ COLLECTION_PATH_SEPARATOR)
    (hgood2 : ∀ i, u2 i ≠ [] ∧ ∀ ch ∈ u2 i, ch ≠ COLLECTION_PATH_SEPARATOR)
    (horig1 : ∀ i, CollID.str (u1 i) ∉ treeIds t)
    (horig2 : ∀ i, CollID.str (u2 i) ∉ treeIds t) :
    (∀ c ∈ L1, (∃ j, c.id = some (.str (u1 j))) ∧ ∀ oid ∈ treeIds t, c.id ≠ some oid) ∧
    (L1.map Collection.id).Nodup ∧
    (∀ c ∈ L1, ∀ pp, c.parentPath = some pp → pp ≠ [] →
      (∃ d ∈ L1, d.id = some (.str (lastSegment pp))) ∧
      ∀ oid ∈ treeIds t, CollID.str (lastSegment pp) ≠ oid) ∧
    L1.map stripRec = L2.map stripRec ∧
    (∀ p ∈ L1.zip L2, ∀ q ∈ L1.zip L2,
      (p.1.parentPath = some (childPathOf q.1) ↔
       p.2.parentPath = some (childPathOf q.2))) ∧
    (∀ c1 ∈ L1, ∀ c2 ∈ L2, c1.id ≠ c2.id) := by
  subst hL1
  subst hL2
  have hE1 : (remapCollectionIDsToCollectionList u1 t [] 0).1 =
      (remapIdx t [] 0).1.map (instEntry u1) :=
    congrArg Prod.fst (remapT_inst u1 t [] 0)
  have hE2 : (remapCollectionIDsToCollectionList u2 t [] 0).1 =
      (remapIdx t [] 0).1.map (instEntry u2) :=
    congrArg Prod.fst (remapT_inst u2 t [] 0)
  refine ⟨?_, ?_, ?_, ?_, ?_, ?_⟩
  · intro c hc
    rw [hE1] at hc
    obtain ⟨e, he, rfl⟩ := List.mem_map.mp hc
    refine ⟨⟨e.2.1, rfl⟩, ?_⟩
    intro oid hoid heq
    have hoe : oid = CollID.str (u1 e.2.1) := (Option.some.inj heq).symm
    rw [hoe] at hoid
    exact horig1 e.2.1 hoid
  · rw [hE1, List.map_map]
    have hcomp : (Collection.id ∘ instEntry u1) =
        (fun i => some (CollID.str (u1 i))) ∘ (fun e : CollectionTree × Nat × List Nat =>
          e.2.1) := rfl
    rw [hcomp, ← List.map_map]
    rw [(remapIdx_range t [] 0).2]
    refine List.Nodup.map ?_ (List.nodup_range' _ _)
    intro i j hij
    exact hinj1 i j (CollID.str.inj (Option.some.inj hij))
  · intro c hc pp hpp hne
    rw [hE1] at hc
    obtain ⟨e, he, rfl⟩ := List.mem_map.mp hc
    have hppe : pp = pathOf u1 e.2.2 := (Option.some.inj hpp).symm
    have hjs : e.2.2 ≠ [] := by
      intro h0
      rw [h0] at hppe
      exact hne (by rw [hppe]; rfl)
    rcases remapIdx_parent t [] 0 e he with h | ⟨ep, hep, he2⟩
    · exact absurd h hjs
    · have hlast : lastSegment pp = u1 ep.2.1 := by
        rw [hppe, he2, pathOf_append]
        rw [show pathOf u1 [ep.2.1] = COLLECTION_PATH_SEPARATOR :: u1 ep.2.1 from by
          simp [pathOf]]
        exact lastSegment_append _ _ (hgood1 ep.2.1).2
      refine ⟨⟨instEntry u1 ep, ?_, by rw [hlast]; rfl⟩, ?_⟩
      · rw [hE1]
        exact List.mem_map_of_mem _ hep
      · intro oid hoid heq
        rw [hlast] at heq
        exact horig1 ep.2.1 (heq ▸ hoid)
  · rw [hE1, hE2, List.map_map, List.map_map]
    rfl
  · intro p hp q hq
    rw [hE1, hE2, List.zip_map'] at hp hq
    obtain ⟨e, -, rfl⟩ := List.mem_map.mp hp
    obtain ⟨f, -, rfl⟩ := List.mem_map.mp hq
    have key : ∀ (u : Nat → List Char), (∀ i j, u i = u j → i = j) →
        (∀ i, u i ≠ [] ∧ ∀ ch ∈ u i, ch ≠ COLLECTION_PATH_SEPARATOR) →
        ∀ (e f : CollectionTree × Nat × List Nat),
        ((instEntry u e).parentPath = some (childPathOf (instEntry u f)) ↔
          e.2.2 = f.2.2 ++ [f.2.1]) := by
      intro u hinj hgood e f
      rw [childPathOf_instEntry]
      constructor
      · intro h
        exact pathOf_inj u hinj hgood _ _ (Option.some.inj h)
      · intro h
        rw [show (instEntry u e).parentPath = some (pathOf u e.2.2) from rfl, h]
    rw [key u1 hinj1 hgood1 e f, key u2 hinj2 hgood2 e f]
  · intro c1 hc1 c2 hc2 heq
    rw [hE1] at hc1
    rw [hE2] at hc2
    obtain ⟨e1, -, rfl⟩ := List.mem_map.mp hc1
    obtain ⟨e2, -, rfl⟩ := List.mem_map.mp hc2
    exact hdisj e1.2.1 e2.2.1 (CollID.str.inj (Option.some.inj heq))

/-- uuidA is injective. -/
theorem uuidA_inj : ∀ i j, uuidA i = uuidA j → i = j := by
  intro i j h
  have hl := congrArg List.length h
  simp [uuidA] at hl
  omega

/-- uuidB is injective. -/
theorem uuidB_inj : ∀ i j, uuidB i = uuidB j → i = j := by
  intro i j h
  have hl := congrArg List.length h
  simp [uuidB] at hl
  omega

/-- uuidA and uuidB never collide. -/
theorem uuidA_ne_uuidB : ∀ i j, uuidA i ≠ uuidB j := by
  intro i j h
  have hh := congrArg List.head? h
  simp [uuidA, uuidB, List.replicate_succ] at hh

/-- uuidA values are nonempty and separator-free. -/
theorem uuidA_good : ∀ i, uuidA i ≠ [] ∧ ∀ ch ∈ uuidA i, ch ≠ COLLECTION_PATH_SEPARATOR := by
  intro i
  constructor
  · simp [uuidA, List.replicate_succ]
  · intro ch hch
    have hc : ch = 'a' := by simpa [uuidA] using hch
    rw [hc]
    decide

/-- uuidB values are nonempty and separator-free. -/
theorem uuidB_good : ∀ i, uuidB i ≠ [] ∧ ∀ ch ∈ uuidB i, ch ≠ COLLECTION_PATH_SEPARATOR := by
  intro i
  constructor
  · simp [uuidB, List.replicate_succ]
  · intro ch hch
    have hc : ch = 'b' := by simpa [uuidB] using hch
    rw [hc]
    decide

/-- The original ids of the sample document. -/
theorem sampleTree_ids : treeIds sampleTree = [.str ['x'], .str ['y']] := by
  simp [treeIds, forestIds, sampleTree]

/-- uuidA values are never original ids of the sample document. -/
theorem uuidA_fresh : ∀ i, CollID.str (uuidA i) ∉ treeIds sampleTree := by
  intro i hmem
  rw [sampleTree_ids] at hmem
  rcases List.mem_cons.mp hmem with h | h
  · have hx : ('x' : Char) ∈ uuidA i := by
      rw [CollID.str.inj h]
      exact List.mem_cons_self _ _
    have hxa : ('x' : Char) = 'a' := by simpa [uuidA] using hx
    exact absurd hxa (by decide)
  · rcases List.mem_cons.mp h with h' | h'
    · have hy : ('y' : Char) ∈ uuidA i := by
        rw [CollID.str.inj h']
        exact List.mem_cons_self _ _
      have hya : ('y' : Char) = 'a' := by simpa [uuidA] using hy
      exact absurd hya (by decide)
    · cases h'

/-- uuidB values are never original ids of the sample document. -/
theorem uuidB_fresh : ∀ i, CollID.str (uuidB i) ∉ treeIds sampleTree := by
  intro i hmem
  rw [sampleTree_ids] at hmem
  rcases List.mem_cons.mp hmem with h | h
  · have hx : ('x' : Char) ∈ uuidB i := by
      rw [CollID.str.inj h]
      exact List.mem_cons_self _ _
    have hxa : ('x' : Char) = 'b' := by simpa [uuidB] using hx
    exact absurd hxa (by decide)
  · rcases List.mem_cons.mp h with h' | h'
    · have hy : ('y' : Char) ∈ uuidB i := by
        rw [CollID.str.inj h']
        exact List.mem_cons_self _ _
      have hya : ('y' : Char) = 'b' := by simpa [uuidB] using hy
      exact absurd hya (by decide)
    · cases h'

/-- Witness for C6: two remaps of the sample document with the disjoint supplies uuidA
    and uuidB agree on all fields other than id/parentPath and share no ids. -/
theorem remapCollectionIDs_fresh_structural_witness :
    ((remapCollectionIDsToCollectionList uuidA sampleTree [] 0).1.map stripRec =
      (remapCollectionIDsToCollectionList uuidB sampleTree [] 0).1.map stripRec) ∧
    (∀ c1 ∈ (remapCollectionIDsToCollectionList uuidA sampleTree [] 0).1,
      ∀ c2 ∈ (remapCollectionIDsToCollectionList uuidB sampleTree [] 0).1,
      c1.id ≠ c2.id) := by
  have h := remapCollectionIDs_fresh_structural sampleTree uuidA uuidB _ _ rfl rfl
    uuidA_inj uuidB_inj uuidA_ne_uuidB uuidA_good uuidB_good uuidA_fresh uuidB_fresh
  exact ⟨h.2.2.2.1, h.2.2.2.2.2⟩
